import Mathlib

/-!
Verification of the `mm-weather` Mattermost slash-command relay (`weather.go`).

Go strings are byte sequences, so the model works with `List Nat` byte lists
(every byte < 256).  JSON documents are modelled by a syntax tree `Json`;
`parseJson` models `encoding/json.Unmarshal`'s grammar, `encV` models
`encoding/json.Marshal`'s compact output (HTML-escaping on, map keys sorted by
`goNorm`), `jpGetString`/`jpGetFloat` model the `buger/jsonparser` extraction
used by `weatherHandler` (first matching key wins, errors swallowed to zero
values), `queryEscape` models `net/url.QueryEscape`, `httpError` models
`net/http.Error`, and `resolveStartup` models the flag/environment/config
resolution in `main`.

Numbers are kept as exact scaled decimals `m / 10 ^ k` (Go parses JSON numbers
into `float64`; the exact-decimal model agrees with Go on every concrete value
used by the claims and on equality of extracted values, but does not model
`float64` rounding of extreme literals, nor the exponent form Go's `%v` uses
for very large/small magnitudes).

String contents are kept as raw bytes: `pStr` and `escByteJ` pass bytes
through where Go's `encoding/json` coerces invalid UTF-8 and unpaired
surrogate escapes to U+FFFD, rejects raw control bytes inside string
literals, combines surrogate pairs, and escapes U+2028/U+2029 on output.
The predicate `strOk` (and `strsOk` over whole documents) cuts out exactly
the strings on which the byte model and `encoding/json` agree — valid
UTF-8, no code point below U+0020, no surrogate, no U+2028/U+2029 — and
the decode/re-encode theorem about `goNorm` is stated under it.
-/

namespace MMWeather

/-- Go strings are byte sequences; bytes are modelled as `Nat` values < 256. -/
abbrev Bytes := List Nat

/-- Byte list of a pure-ASCII Lean string literal (one byte per character). -/
def ascii (s : String) : Bytes := s.data.map Char.toNat

/-- Decimal digit test, as in the JSON number grammar. -/
def isDigitB (b : Nat) : Bool := 48 ≤ b && b ≤ 57

/-- JSON whitespace bytes (space, tab, newline, carriage return). -/
def isWsB (b : Nat) : Bool := b == 32 || b == 9 || b == 10 || b == 13

/-- Skip leading JSON whitespace, as `encoding/json`'s scanner does. -/
def skipWs (bs : Bytes) : Bytes := bs.dropWhile isWsB

/-- Numeric value of a big-endian list of decimal digit bytes. -/
def digitsVal (ds : Bytes) : Nat := ds.foldl (fun a b => a * 10 + (b - 48)) 0

/-- Fuelled big-endian decimal digits of a natural number (fuel ≥ n suffices). -/
def natDigitsGo : Nat → Nat → Bytes
  | 0, _ => []
  | fuel + 1, n => if n < 10 then [48 + n] else natDigitsGo fuel (n / 10) ++ [48 + n % 10]

/-- Big-endian decimal digit bytes of a natural number. -/
def natDigits (n : Nat) : Bytes := natDigitsGo (n + 1) n

/-- Repeated ASCII zero bytes. -/
def zeroBytes (n : Nat) : Bytes := List.replicate n 48

/-- Strip trailing decimal zeros from the scaled decimal `n / 10 ^ k`
(normalisation performed implicitly by Go's float64 round trip). -/
def stripZerosN : Nat → Nat → Nat × Nat
  | n, 0 => (n, 0)
  | n, k + 1 => if n % 10 = 0 then stripZerosN (n / 10) k else (n, k + 1)

/-- Decimal rendering of the non-negative scaled decimal `n / 10 ^ k`. -/
def encNumNat (n : Nat) (k : Nat) : Bytes :=
  if k = 0 then natDigits n
  else
    let ds := natDigits n
    if k < ds.length then ds.take (ds.length - k) ++ [46] ++ ds.drop (ds.length - k)
    else [48, 46] ++ zeroBytes (k - ds.length) ++ ds

/-- Decimal rendering of the scaled decimal `m / 10 ^ k`; models how Go prints
the corresponding `float64` (both `json.Marshal` and `fmt`'s `%v`) for
magnitudes where Go uses plain decimal notation. -/
def encNum (m : Int) (k : Nat) : Bytes :=
  if m < 0 then 45 :: encNumNat m.natAbs k else encNumNat m.natAbs k

/-- Lowercase hex digit byte, as used by Go's `\u00xx` string escapes. -/
def hexDigitL (n : Nat) : Nat := if n < 10 then 48 + n else 87 + n

/-- Escape one string byte the way `encoding/json.Marshal` does (HTML escaping
enabled by default: `<`, `>`, `&` become `<`, `>`, `&`). Bytes ≥ 0x80
pass through raw, which matches Go's encoder exactly on `strOk` strings
(valid UTF-8 without U+2028/U+2029); Go additionally coerces invalid UTF-8
to U+FFFD and escapes U+2028/U+2029, which this byte model does not do. -/
def escByteJ (b : Nat) : Bytes :=
  if b = 34 then [92, 34]
  else if b = 92 then [92, 92]
  else if b = 10 then [92, 110]
  else if b = 13 then [92, 114]
  else if b = 9 then [92, 116]
  else if b = 60 ∨ b = 62 ∨ b = 38 ∨ b < 32 then
    [92, 117, 48, 48, hexDigitL (b / 16), hexDigitL (b % 16)]
  else [b]

/-- JSON string-content escaping, byte by byte. -/
def escContent (s : Bytes) : Bytes := s.flatMap escByteJ

/-- Value of one hex digit byte (upper or lower case accepted, as in JSON). -/
def hexVal (b : Nat) : Option Nat :=
  if 48 ≤ b ∧ b ≤ 57 then some (b - 48)
  else if 65 ≤ b ∧ b ≤ 70 then some (b - 55)
  else if 97 ≤ b ∧ b ≤ 102 then some (b - 87)
  else none

/-- Single-character JSON string escapes. -/
def escCode (e : Nat) : Option Nat :=
  if e = 34 then some 34
  else if e = 92 then some 92
  else if e = 47 then some 47
  else if e = 98 then some 8
  else if e = 102 then some 12
  else if e = 110 then some 10
  else if e = 114 then some 13
  else if e = 116 then some 9
  else none

/-- UTF-8 encoding of a unicode code point (used for `\uXXXX` escapes). -/
def utf8Enc (c : Nat) : Bytes :=
  if c < 128 then [c]
  else if c < 2048 then [192 + c / 64, 128 + c % 64]
  else if c < 65536 then [224 + c / 4096, 128 + c / 64 % 64, 128 + c % 64]
  else [240 + c / 262144, 128 + c / 4096 % 64, 128 + c / 64 % 64, 128 + c % 64]

/-- Parse JSON string content (after the opening quote) up to the closing
quote, resolving escapes; fuel ≥ input length suffices. Raw bytes pass
through unchanged and `\uXXXX` escapes are UTF-8-encoded directly, which
matches both `encoding/json`'s unquoting and `jsonparser`'s on strings
whose decoded bytes satisfy `strOk`; outside that set Go coerces invalid
UTF-8 and unpaired surrogates to U+FFFD, combines surrogate pairs, and
rejects raw control bytes, none of which this byte model does. -/
def pStr : Nat → Bytes → Option (Bytes × Bytes)
  | 0, _ => none
  | _ + 1, [] => none
  | fuel + 1, b :: rest =>
    if b = 34 then some ([], rest)
    else if b = 92 then
      match rest with
      | [] => none
      | e :: rest2 =>
        if e = 117 then
          match rest2 with
          | h1 :: h2 :: h3 :: h4 :: rest3 =>
            (match hexVal h1, hexVal h2, hexVal h3, hexVal h4 with
             | some v1, some v2, some v3, some v4 =>
               (match pStr fuel rest3 with
                | some (s, r) => some (utf8Enc (((v1 * 16 + v2) * 16 + v3) * 16 + v4) ++ s, r)
                | none => none)
             | _, _, _, _ => none)
          | _ => none
        else
          match escCode e with
          | some d =>
            (match pStr fuel rest2 with
             | some (s, r) => some (d :: s, r)
             | none => none)
          | none => none
    else
      match pStr fuel rest with
      | some (s, r) => some (b :: s, r)
      | none => none

mutual
/-- JSON documents: the value space of `encoding/json`. Object member lists
keep source order and may contain duplicate keys (as raw JSON text can);
numbers are exact scaled decimals `m / 10 ^ k`; strings are raw byte
contents with escapes already resolved. -/
inductive Json where
  | null : Json
  | bool (b : Bool) : Json
  | num (m : Int) (k : Nat) : Json
  | str (s : Bytes) : Json
  | arr (xs : JsonList) : Json
  | obj (fs : JsonMembers) : Json
/-- List of JSON array elements. -/
inductive JsonList where
  | nil : JsonList
  | cons (hd : Json) (tl : JsonList) : JsonList
/-- List of JSON object members (key bytes and value), in source order. -/
inductive JsonMembers where
  | nil : JsonMembers
  | cons (key : Bytes) (val : Json) (tl : JsonMembers) : JsonMembers
end

mutual
/-- Compact JSON rendering, as `encoding/json.Marshal` emits it (no
whitespace; strings escaped by `escContent`). Key ordering is the member
list's own order: the sorting Go applies to maps lives in `goNorm`. -/
def encV : Json → Bytes
  | .null => [110, 117, 108, 108]
  | .bool true => [116, 114, 117, 101]
  | .bool false => [102, 97, 108, 115, 101]
  | .num m k => encNum m k
  | .str s => 34 :: escContent s ++ [34]
  | .arr xs => 91 :: encItems xs ++ [93]
  | .obj fs => 123 :: encFields fs ++ [125]
/-- Comma-separated rendering of array elements. -/
def encItems : JsonList → Bytes
  | .nil => []
  | .cons v .nil => encV v
  | .cons v (.cons w ws) => encV v ++ 44 :: encItems (.cons w ws)
/-- Comma-separated rendering of object members. -/
def encFields : JsonMembers → Bytes
  | .nil => []
  | .cons k v .nil => 34 :: escContent k ++ [34, 58] ++ encV v
  | .cons k v (.cons k2 v2 fs) =>
    (34 :: escContent k ++ [34, 58] ++ encV v) ++ 44 :: encFields (.cons k2 v2 fs)
end

/-- Exponent part of a JSON number (after `e`/`E`), applied to the scaled
decimal read so far; the result is normalised by `stripZerosN`. -/
def applyExpN (n : Nat) (k : Nat) (esign : Bool) (ev : Nat) : Nat × Nat :=
  if esign then stripZerosN n (k + ev)
  else if k ≤ ev then (n * 10 ^ (ev - k), 0)
  else stripZerosN n (k - ev)

/-- Attach the sign to a parsed magnitude. -/
def mkNum (neg : Bool) (p : Nat × Nat) : Int × Nat :=
  (if neg then -(p.1 : Int) else (p.1 : Int), p.2)

/-- Parse an optional exponent suffix body (`[+-]?digits`). -/
def pNumExpPart (neg : Bool) (n : Nat) (k : Nat) (rest : Bytes) : Option ((Int × Nat) × Bytes) :=
  let esign := match rest with | 45 :: _ => true | _ => false
  let r0 := match rest with
    | 45 :: rr => rr
    | 43 :: rr => rr
    | _ => rest
  let eds := r0.takeWhile isDigitB
  let r1 := r0.dropWhile isDigitB
  if eds = [] then none
  else some (mkNum neg (applyExpN n k esign (digitsVal eds)), r1)

/-- Finish a number: either an exponent follows, or the number ends here. -/
def pNumTail (neg : Bool) (n : Nat) (k : Nat) (r : Bytes) : Option ((Int × Nat) × Bytes) :=
  match r with
  | [] => some (mkNum neg (stripZerosN n k), [])
  | b :: rest =>
    if b = 101 ∨ b = 69 then pNumExpPart neg n k rest
    else some (mkNum neg (stripZerosN n k), b :: rest)

/-- Parse what follows a number's integer part: an optional fraction, then
`pNumTail` for the optional exponent. -/
def pNumAfterInt (neg : Bool) (n : Nat) : Bytes → Option ((Int × Nat) × Bytes)
  | [] => pNumTail neg n 0 []
  | c :: rr =>
    if c = 46 then
      let fds := rr.takeWhile isDigitB
      let r2 := rr.dropWhile isDigitB
      if fds = [] then none
      else pNumTail neg (n * 10 ^ fds.length + digitsVal fds) fds.length r2
    else pNumTail neg n 0 (c :: rr)

/-- Parse the magnitude of a JSON number (integer part without leading
zeros, optional fraction, optional exponent), the sign already consumed. -/
def pNumMag (neg : Bool) (r0 : Bytes) : Option ((Int × Nat) × Bytes) :=
  let ids := r0.takeWhile isDigitB
  let r1 := r0.dropWhile isDigitB
  if ids = [] then none
  else if 2 ≤ ids.length ∧ ids.headI = 48 then none
  else pNumAfterInt neg (digitsVal ids) r1

/-- Parse a JSON number, yielding the normalised scaled decimal. -/
def pNum (input : Bytes) : Option ((Int × Nat) × Bytes) :=
  match input with
  | [] => none
  | b :: tail => if b = 45 then pNumMag true tail else pNumMag false (b :: tail)

mutual
/-- Parse one JSON value (fuel bounds the recursion depth; `parseJson`
supplies enough for any input). Models `encoding/json`'s grammar. -/
def pValue : Nat → Bytes → Option (Json × Bytes)
  | 0, _ => none
  | fuel + 1, input =>
    match skipWs input with
    | [] => none
    | b :: rest =>
      if b = 110 then
        match rest with
        | 117 :: 108 :: 108 :: r => some (.null, r)
        | _ => none
      else if b = 116 then
        match rest with
        | 114 :: 117 :: 101 :: r => some (.bool true, r)
        | _ => none
      else if b = 102 then
        match rest with
        | 97 :: 108 :: 115 :: 101 :: r => some (.bool false, r)
        | _ => none
      else if b = 34 then
        match pStr rest.length rest with
        | some (s, r) => some (.str s, r)
        | none => none
      else if b = 91 then
        match skipWs rest with
        | [] => none
        | c :: r =>
          if c = 93 then some (.arr .nil, r)
          else
            match pElems fuel (c :: r) with
            | some (xs, r2) => some (.arr xs, r2)
            | none => none
      else if b = 123 then
        match skipWs rest with
        | [] => none
        | c :: r =>
          if c = 125 then some (.obj .nil, r)
          else
            match pMembers fuel (c :: r) with
            | some (fs, r2) => some (.obj fs, r2)
            | none => none
      else
        match pNum (b :: rest) with
        | some ((m, k), r) => some (.num m k, r)
        | none => none
/-- Parse the elements of a non-empty array, consuming the closing `]`. -/
def pElems : Nat → Bytes → Option (JsonList × Bytes)
  | 0, _ => none
  | fuel + 1, input =>
    match pValue fuel input with
    | some (v, r) =>
      (match skipWs r with
       | [] => none
       | c :: r2 =>
         if c = 44 then
           match pElems fuel r2 with
           | some (vs, r3) => some (.cons v vs, r3)
           | none => none
         else if c = 93 then some (.cons v .nil, r2)
         else none)
    | none => none
/-- Parse the members of a non-empty object, consuming the closing `}`. -/
def pMembers : Nat → Bytes → Option (JsonMembers × Bytes)
  | 0, _ => none
  | fuel + 1, input =>
    match skipWs input with
    | [] => none
    | c :: rest =>
      if c = 34 then
        match pStr rest.length rest with
        | some (key, r) =>
          (match skipWs r with
           | [] => none
           | c2 :: r2 =>
             if c2 = 58 then
               match pValue fuel r2 with
               | some (v, r3) =>
                 (match skipWs r3 with
                  | [] => none
                  | c3 :: r4 =>
                    if c3 = 44 then
                      match pMembers fuel r4 with
                      | some (fs, r5) => some (.cons key v fs, r5)
                      | none => none
                    else if c3 = 125 then some (.cons key v .nil, r4)
                    else none)
               | none => none
             else none)
        | none => none
      else none
end

/-- Parse a complete JSON document (value plus trailing whitespace only),
modelling a successful `encoding/json.Unmarshal` of the whole input. -/
def parseJson (bs : Bytes) : Option Json :=
  match pValue (bs.length + 1) bs with
  | some (v, r) => if skipWs r = [] then some v else none
  | none => none

/-- First member with the given key (the `buger/jsonparser` search order:
scanning the raw object text, the first matching key wins). -/
def mLookup : JsonMembers → Bytes → Option Json
  | .nil, _ => none
  | .cons k v fs, key => if k = key then some v else mLookup fs key

/-- Whether a member list contains the given key. -/
def mHasKey (fs : JsonMembers) (key : Bytes) : Bool :=
  match fs with
  | .nil => false
  | .cons k _ tl => k == key || mHasKey tl key

/-- Insert into a Go map under construction: an existing key is overwritten
in place (later duplicate keys win, as in `encoding/json` map decoding),
otherwise the binding is appended. -/
def mInsertGo : JsonMembers → Bytes → Json → JsonMembers
  | .nil, k, v => .cons k v .nil
  | .cons k0 v0 fs, k, v =>
    if k0 = k then .cons k0 v fs else .cons k0 v0 (mInsertGo fs k v)

/-- Fold a member list into a Go map (later duplicate keys overwrite). -/
def mDedupAux : JsonMembers → JsonMembers → JsonMembers
  | acc, .nil => acc
  | acc, .cons k v fs => mDedupAux (mInsertGo acc k v) fs

/-- Member list as Go's `map[string]interface` sees it: duplicates collapse
to the last value. -/
def mDedup (fs : JsonMembers) : JsonMembers := mDedupAux .nil fs

/-- Byte-lexicographic strict order on keys (Go's `string` ordering, which
`encoding/json.Marshal` uses to sort map keys). -/
def bytesLt : Bytes → Bytes → Bool
  | _, [] => false
  | [], _ :: _ => true
  | a :: as, b :: bs => if a < b then true else if a = b then bytesLt as bs else false

/-- Sorted insertion for member lists. -/
def mInsertSorted (k : Bytes) (v : Json) : JsonMembers → JsonMembers
  | .nil => .cons k v .nil
  | .cons k0 v0 fs =>
    if bytesLt k k0 then .cons k v (.cons k0 v0 fs)
    else .cons k0 v0 (mInsertSorted k v fs)

/-- Insertion sort of object members by key. -/
def mSort : JsonMembers → JsonMembers
  | .nil => .nil
  | .cons k v fs => mInsertSorted k v (mSort fs)

mutual
/-- Semantics of the weather client's decode/re-encode pair on a decoded
value: `json.Unmarshal` into `map[string]interface` collapses duplicate
keys (last wins) and `json.Marshal` then sorts map keys; this happens at
every nesting level. Leaves are unchanged. -/
def goNorm : Json → Json
  | .null => .null
  | .bool b => .bool b
  | .num m k => .num m k
  | .str s => .str s
  | .arr xs => .arr (goNormItems xs)
  | .obj fs => .obj (mSort (mDedup (goNormFields fs)))
/-- Pointwise `goNorm` over array elements. -/
def goNormItems : JsonList → JsonList
  | .nil => .nil
  | .cons v vs => .cons (goNorm v) (goNormItems vs)
/-- Pointwise `goNorm` over member values. -/
def goNormFields : JsonMembers → JsonMembers
  | .nil => .nil
  | .cons k v fs => .cons k (goNorm v) (goNormFields fs)
end

mutual
/-- Values in the image of the parser: scaled decimals are normalised
(no trailing fractional zeros). -/
def jCanon : Json → Bool
  | .null => true
  | .bool _ => true
  | .num m k => k == 0 || m.natAbs % 10 != 0
  | .str _ => true
  | .arr xs => jCanonItems xs
  | .obj fs => jCanonFields fs
/-- Canonicity over array elements. -/
def jCanonItems : JsonList → Bool
  | .nil => true
  | .cons v vs => jCanon v && jCanonItems vs
/-- Canonicity over member values. -/
def jCanonFields : JsonMembers → Bool
  | .nil => true
  | .cons _ v fs => jCanon v && jCanonFields fs
end

mutual
/-- No object anywhere in the value has two members with the same key. -/
def noDupKeys : Json → Bool
  | .null => true
  | .bool _ => true
  | .num _ _ => true
  | .str _ => true
  | .arr xs => noDupKeysItems xs
  | .obj fs => noDupKeysFields fs
/-- Duplicate-key freedom over array elements. -/
def noDupKeysItems : JsonList → Bool
  | .nil => true
  | .cons v vs => noDupKeys v && noDupKeysItems vs
/-- Duplicate-key freedom over an object's members and their values. -/
def noDupKeysFields : JsonMembers → Bool
  | .nil => true
  | .cons k v fs => !mHasKey fs k && noDupKeys v && noDupKeysFields fs
end

/-- UTF-8 continuation byte (0x80–0xBF). -/
def isContB (b : Nat) : Bool := 0x80 ≤ b && b ≤ 0xBF

/-- Decoded string bytes on which the byte-level string model coincides with
Go's `encoding/json`: a valid UTF-8 sequence whose code points are all
≥ U+0020 (so the source literal contained no raw control byte), none of them
a surrogate (so no `\uXXXX` surrogate escape fed the content) and none of
them U+2028/U+2029 (which `Marshal` alone escapes). The branch structure
follows the UTF-8 well-formedness table: C2–DF lead 2-byte sequences,
E0/ED/E2 get their restricted second bytes, F0/F4 likewise, and everything
else in E1–EF / F1–F3 takes unrestricted continuations. -/
def strOk : Bytes → Bool
  | [] => true
  | b :: rest =>
    if b < 0x20 then false
    else if b ≤ 0x7F then strOk rest
    else if 0xC2 ≤ b && b ≤ 0xDF then
      match rest with
      | b2 :: rest2 => isContB b2 && strOk rest2
      | [] => false
    else if b = 0xE0 then
      match rest with
      | b2 :: b3 :: rest3 => (0xA0 ≤ b2 && b2 ≤ 0xBF) && isContB b3 && strOk rest3
      | _ => false
    else if b = 0xED then
      match rest with
      | b2 :: b3 :: rest3 => (0x80 ≤ b2 && b2 ≤ 0x9F) && isContB b3 && strOk rest3
      | _ => false
    else if b = 0xE2 then
      match rest with
      | b2 :: b3 :: rest3 =>
        isContB b2 && isContB b3 && !(b2 == 0x80 && (b3 == 0xA8 || b3 == 0xA9))
          && strOk rest3
      | _ => false
    else if 0xE1 ≤ b && b ≤ 0xEF then
      match rest with
      | b2 :: b3 :: rest3 => isContB b2 && isContB b3 && strOk rest3
      | _ => false
    else if b = 0xF0 then
      match rest with
      | b2 :: b3 :: b4 :: rest4 =>
        (0x90 ≤ b2 && b2 ≤ 0xBF) && isContB b3 && isContB b4 && strOk rest4
      | _ => false
    else if 0xF1 ≤ b && b ≤ 0xF3 then
      match rest with
      | b2 :: b3 :: b4 :: rest4 => isContB b2 && isContB b3 && isContB b4 && strOk rest4
      | _ => false
    else if b = 0xF4 then
      match rest with
      | b2 :: b3 :: b4 :: rest4 =>
        (0x80 ≤ b2 && b2 ≤ 0x8F) && isContB b3 && isContB b4 && strOk rest4
      | _ => false
    else false

mutual
/-- Every string in the document (member keys and string values) satisfies
`strOk`, i.e. lies in the region where the byte model of string decoding
and re-encoding agrees with `encoding/json` and with `jsonparser`. -/
def strsOk : Json → Bool
  | .null => true
  | .bool _ => true
  | .num _ _ => true
  | .str s => strOk s
  | .arr xs => strsOkItems xs
  | .obj fs => strsOkFields fs
/-- `strsOk` over array elements. -/
def strsOkItems : JsonList → Bool
  | .nil => true
  | .cons v vs => strsOk v && strsOkItems vs
/-- `strsOk` over member keys and values. -/
def strsOkFields : JsonMembers → Bool
  | .nil => true
  | .cons k v fs => strOk k && strsOk v && strsOkFields fs
end

mutual
/-- Fuel needed by `pValue` to parse the rendering of a value. -/
def fuelV : Json → Nat
  | .null => 1
  | .bool _ => 1
  | .num _ _ => 1
  | .str _ => 1
  | .arr xs => 1 + fuelItems xs
  | .obj fs => 1 + fuelFields fs
/-- Fuel needed by `pElems` on an element list. -/
def fuelItems : JsonList → Nat
  | .nil => 0
  | .cons v vs => 1 + max (fuelV v) (fuelItems vs)
/-- Fuel needed by `pMembers` on a member list. -/
def fuelFields : JsonMembers → Nat
  | .nil => 0
  | .cons _ v fs => 1 + max (fuelV v) (fuelFields fs)
end

/-- Weather client, `callWeatherAPI` (`weather.go:137-176`), applied to the
provider's response body once the transport and read succeeded: the body is
decoded into `map[string]interface` (this fails exactly when the body is
not a JSON document whose top level is an object or `null` — `Unmarshal`
stores `null` as a nil map without error) and re-encoded with `json.Marshal`.
Error strings stand in for the corresponding Go error messages. -/
def callWeatherAPIBody (body : Bytes) : Except Bytes Bytes :=
  match parseJson body with
  | none => .error (ascii "invalid JSON body")
  | some .null => .ok (ascii "null")
  | some (.obj fs) => .ok (encV (goNorm (.obj fs)))
  | some _ => .error (ascii "json: cannot unmarshal value into Go value of type map")

/-- HTTP response written by the handler: status code, the Content-Type
header it sets (if any), and the body bytes. -/
structure HttpResponse where
  status : Nat
  contentType : Option String
  body : Bytes
deriving DecidableEq

/-- Model of `net/http.Error`: sets Content-Type to text/plain, writes the
status code, and prints the message FOLLOWED BY A NEWLINE (`fmt.Fprintln`). -/
def httpError (msg : Bytes) (code : Nat) : HttpResponse :=
  { status := code, contentType := some "text/plain; charset=utf-8", body := msg ++ [10] }

/-- Walk a key path through a JSON value, the way `jsonparser` searches the
document (first matching key at each level). -/
def walkPath : Json → List Bytes → Option Json
  | v, [] => some v
  | .obj fs, k :: rest =>
    (match mLookup fs k with
     | some v => walkPath v rest
     | none => none)
  | _, _ :: _ => none

/-- Model of `jsonparser.GetString` with the error discarded: the string at
the path, or the zero value on any failure (missing key, wrong type). -/
def jpGetString (body : Bytes) (path : List Bytes) : Bytes :=
  match parseJson body with
  | some v =>
    (match walkPath v path with
     | some (.str s) => s
     | _ => [])
  | none => []

/-- Model of `jsonparser.GetFloat` with the error discarded: the number at
the path as a scaled decimal, or zero on any failure. -/
def jpGetFloat (body : Bytes) (path : List Bytes) : Int × Nat :=
  match parseJson body with
  | some v =>
    (match walkPath v path with
     | some (.num m k) => (m, k)
     | _ => (0, 0))
  | none => (0, 0)

/-- Path `location.name` used at `weather.go:106`. -/
def locationNamePath : List Bytes := [ascii "location", ascii "name"]

/-- Path `current.temp_c` used at `weather.go:107`. -/
def tempPath : List Bytes := [ascii "current", ascii "temp_c"]

/-- Path `current.condition.text` used at `weather.go:108`. -/
def conditionPath : List Bytes := [ascii "current", ascii "condition", ascii "text"]

/-- The triple the handler extracts from a response body. -/
def extract3 (body : Bytes) : Bytes × (Int × Nat) × Bytes :=
  (jpGetString body locationNamePath, jpGetFloat body tempPath, jpGetString body conditionPath)

/-- Bytes the source file has between the `%v` verb and the letter `C` in the
message format string (`weather.go:111`): hex `C3 82 C2 B0`, i.e. the UTF-8
encoding of U+00C2 U+00B0 — a double-encoded degree sign rendered "Â°",
not the plain degree sign U+00B0 (`C2 B0`). -/
def sourceDegreeSeq : Bytes := [195, 130, 194, 176]

/-- Message built at `weather.go:111`:
`fmt.Sprintf("Current weather in %s: %v<degree>C - %s", ...)` where
`<degree>` is `sourceDegreeSeq` and the temperature is printed with `%v`. -/
def mkMessage (name : Bytes) (temp : Int × Nat) (cond : Bytes) : Bytes :=
  ascii "Current weather in " ++ name ++ ascii ": " ++ encNum temp.1 temp.2
    ++ sourceDegreeSeq ++ ascii "C - " ++ cond

/-- Body produced by `json.Marshal` of `MattermostResponse` with
`ResponseType = "in_channel"` (`weather.go:115-121`): field order follows the
struct, strings are escaped. This marshal cannot fail. -/
def marshalMattermost (text : Bytes) : Bytes :=
  ascii "\x7b\"response_type\":\"in_channel\",\"text\":\"" ++ escContent text ++ ascii "\"\x7d"

/-- The handler's behaviour (`weather.go:89-134`) after the location was
resolved, as a function of the weather client's result: errors become
`http.Error(..., 500)`; otherwise the three fields are extracted (errors
swallowed), the message formatted, and the envelope written with HTTP 200
and Content-Type application/json. -/
def weatherHandler (clientResult : Except Bytes Bytes) : HttpResponse :=
  match clientResult with
  | .error e => httpError e 500
  | .ok apiResponse =>
    { status := 200
      contentType := some "application/json"
      body := marshalMattermost (mkMessage (jpGetString apiResponse locationNamePath)
        (jpGetFloat apiResponse tempPath) (jpGetString apiResponse conditionPath)) }

/-- End-to-end behaviour on a provider response body that was received and
read successfully. -/
def handleProviderBody (body : Bytes) : HttpResponse :=
  weatherHandler (callWeatherAPIBody body)

/-- Model of Go's `url.Values.Get`: first value listed for the key, or the
empty string when the key is absent. -/
def queryGetParam (q : List (String × String)) (k : String) : String :=
  match q.find? (fun p => p.1 == k) with
  | some p => p.2
  | none => ""

/-- Location resolution at `weather.go:93-97`: the `text` query parameter,
with the sentinel `auto:ip` substituted when it is missing or empty. -/
def resolveLocation (q : List (String × String)) : String :=
  let location := queryGetParam q "text"
  if location = "" then "auto:ip" else location

/-- Go's `url.QueryEscape` keeps `A-Z a-z 0-9 - _ . ~` unescaped. -/
def isUnreservedQ (b : Nat) : Bool :=
  (48 ≤ b && b ≤ 57) || (65 ≤ b && b ≤ 90) || (97 ≤ b && b ≤ 122)
    || b == 45 || b == 95 || b == 46 || b == 126

/-- Uppercase hex digit byte, as `url.QueryEscape` emits. -/
def hexDigitU (n : Nat) : Nat := if n < 10 then 48 + n else 55 + n

/-- Escape one byte as `url.QueryEscape` does: unreserved bytes unchanged,
space becomes `+`, everything else becomes `%XX`. -/
def escByteQ (b : Nat) : Bytes :=
  if isUnreservedQ b then [b]
  else if b = 32 then [43]
  else [37, hexDigitU (b / 16), hexDigitU (b % 16)]

/-- Model of `url.QueryEscape` (`weather.go:140`). -/
def queryEscape (bs : Bytes) : Bytes := bs.flatMap escByteQ

/-- Model of `url.QueryUnescape`: decodes `%XX` and `+`; `none` on a
malformed escape. -/
def queryUnescape : Bytes → Option Bytes
  | [] => some []
  | b :: rest =>
    if b = 37 then
      match rest with
      | h :: l :: rest2 =>
        (match hexVal h, hexVal l, queryUnescape rest2 with
         | some hv, some lv, some tl => some ((16 * hv + lv) :: tl)
         | _, _, _ => none)
      | _ => none
    else if b = 43 then
      match queryUnescape rest with
      | some tl => some (32 :: tl)
      | none => none
    else
      match queryUnescape rest with
      | some tl => some (b :: tl)
      | none => none

/-- Query string built at `weather.go:142`:
`key=<apiKey>&q=<escaped location>&aqi=no` (the API key is interpolated
verbatim). -/
def urlQuery (key loc : Bytes) : Bytes :=
  ascii "key=" ++ key ++ [38] ++ ascii "q=" ++ queryEscape loc ++ [38] ++ ascii "aqi=no"

/-- Full outbound URL built at `weather.go:142`. -/
def fullURL (key loc : Bytes) : Bytes :=
  ascii "http://api.weatherapi.com/v1/current.json" ++ [63] ++ urlQuery key loc

/-- Split a query string at `&` separators. -/
def splitAmp (bs : Bytes) : List Bytes :=
  bs.foldr
    (fun b acc =>
      match acc with
      | [] => [[b]]
      | cur :: rest => if b = 38 then [] :: cur :: rest else (b :: cur) :: rest)
    [[]]

/-- Cut a `key=value` segment at the first `=` (no `=`: the value is empty). -/
def cutEq : Bytes → Bytes × Bytes
  | [] => ([], [])
  | b :: rest =>
    if b = 61 then ([], rest)
    else
      let p := cutEq rest
      (b :: p.1, p.2)

/-- All raw values a query string lists for a key, in order. -/
def qValues (query : Bytes) (key : Bytes) : List Bytes :=
  (splitAmp query).filterMap (fun seg =>
    let p := cutEq seg
    if p.1 = key then some p.2 else none)

/-- Raw value of a query parameter: the first occurrence, if any. -/
def qGet (query key : Bytes) : Option Bytes := (qValues query key).head?

/-- Hardcoded default port, `weather.go:20`. -/
def defaultPort : String := "8080"

/-- Model of `viper.GetString` on a loaded config: the entry's value, or the
empty string when the key is absent. -/
def configGetString (cfg : List (String × String)) (key : String) : String :=
  match cfg.find? (fun p => p.1 == key) with
  | some p => p.2
  | none => ""

/-- Inputs to `main`'s configuration resolution: the `-token` and `-port`
flag values (empty string when not passed), the two environment variables
(`none` when unset — `os.LookupEnv` distinguishes unset from empty), and
the config file as either a read/parse error or its key/value entries. -/
structure StartupEnv where
  tokenFlag : String
  portFlag : String
  envWeatherToken : Option String
  envListenPort : Option String
  configFile : Except String (List (String × String))

/-- Outcome of `main`'s startup sequence before the listener is started. -/
inductive StartupOutcome where
  | panicEarly (msg : String) : StartupOutcome
  | exitStatus2 : StartupOutcome
  | started (apiKey : String) (listenPort : String) : StartupOutcome
deriving DecidableEq

/-- API-token resolution (`weather.go:196-213`): the flag if non-empty,
else the environment variable's value whenever the variable is SET (even if
its value is empty), else the config file's `apiKey` (loading the config —
an unreadable config panics). Returns the token together with the loaded
config, because the port step reuses the same viper state. -/
def resolveAPIKeySrc (e : StartupEnv) : Except String (String × Option (List (String × String))) :=
  if e.tokenFlag ≠ "" then .ok (e.tokenFlag, none)
  else
    match e.envWeatherToken with
    | some v => .ok (v, none)
    | none =>
      match e.configFile with
      | .error msg => .error msg
      | .ok cfg => .ok (configGetString cfg "apiKey", some cfg)

/-- Port resolution (`weather.go:224-241`): the flag if non-empty, else the
environment variable's value whenever it is SET (even if empty — nothing
replaces it afterwards), else the config's `listenPort` — but `viper` only
has the config if the API-key step loaded it — else the default. -/
def resolvePort (e : StartupEnv) (loadedCfg : Option (List (String × String))) : String :=
  if e.portFlag ≠ "" then e.portFlag
  else
    match e.envListenPort with
    | some v => v
    | none =>
      let fromCfg :=
        match loadedCfg with
        | some cfg => configGetString cfg "listenPort"
        | none => ""
      if fromCfg = "" then defaultPort else fromCfg

/-- Startup sequence of `main` (`weather.go:178-246`) up to (not including)
`ListenAndServe`: resolve the API key (possibly panicking on an unreadable
config), exit with status 2 if it is empty, then resolve the port. -/
def resolveStartup (e : StartupEnv) : StartupOutcome :=
  match resolveAPIKeySrc e with
  | .error msg => .panicEarly msg
  | .ok (apiToken, loadedCfg) =>
    if apiToken = "" then .exitStatus2
    else .started apiToken (resolvePort e loadedCfg)

/-- API key used when the process started. -/
def outcomeKey : StartupOutcome → Option String
  | .started k _ => some k
  | _ => none

/-- Listen port used when the process started. -/
def outcomePort : StartupOutcome → Option String
  | .started _ p => some p
  | _ => none

/-- The first byte (if any) fails the predicate. -/
def headNotP (p : Nat → Bool) : Bytes → Prop
  | [] => True
  | c :: _ => p c = false

/-- Bytes that may legally follow a complete JSON number (nothing that the
number grammar would keep consuming). -/
def numBoundary : Bytes → Prop
  | [] => True
  | c :: _ => isDigitB c = false ∧ c ≠ 46 ∧ c ≠ 101 ∧ c ≠ 69

/-- Concatenation of member lists. -/
def mAppend : JsonMembers → JsonMembers → JsonMembers
  | .nil, gs => gs
  | .cons k v fs, gs => .cons k v (mAppend fs gs)

/-- Pairwise-distinct keys of one member list (keys only, not recursive). -/
def keysNodupM : JsonMembers → Bool
  | .nil => true
  | .cons k _ tl => !mHasKey tl k && keysNodupM tl

/-- Provider body `\x7b\x7d` (the empty JSON object). -/
def emptyObjBody : Bytes := ascii "\x7b\x7d"

/-- Well-formed provider body with `location.name = "Paris"`,
`current.temp_c = 21.5`, `current.condition.text = "Sunny"`. -/
def parisBody : Bytes :=
  ascii "\x7b\"location\":\x7b\"name\":\"Paris\"\x7d,\"current\":\x7b\"temp_c\":21.5,\"condition\":\x7b\"text\":\"Sunny\"\x7d\x7d\x7d"

/-- Provider body whose top-level object repeats the key `location` (legal
JSON text, accepted by `encoding/json`). -/
def dupKeyBody : Bytes :=
  ascii "\x7b\"location\":\x7b\"name\":\"A\"\x7d,\"location\":\x7b\"name\":\"B\"\x7d\x7d"

/-- Startup environment with no `-token` flag, `WEATHER_API_TOKEN` set to the
empty string, and a readable config file whose `apiKey` is `secret`. -/
def cenv6 : StartupEnv :=
  { tokenFlag := "", portFlag := "", envWeatherToken := some "", envListenPort := none,
    configFile := .ok [("apiKey", "secret")] }

/-- Startup environment where the witness path is the `-token` flag. -/
def wenv6 : StartupEnv :=
  { tokenFlag := "flagkey", portFlag := "", envWeatherToken := some "envkey",
    envListenPort := none, configFile := .ok [] }

/-- Startup environment where the API key comes from the `-token` flag, no
port flag or port environment variable is set, and the (never loaded)
config file names `listenPort = 9999`. -/
def cenv7a : StartupEnv :=
  { tokenFlag := "k", portFlag := "", envWeatherToken := none, envListenPort := none,
    configFile := .ok [("listenPort", "9999")] }

/-- Startup environment where `MM_LISTEN_PORT` is set to the empty string. -/
def cenv7b : StartupEnv :=
  { tokenFlag := "k", portFlag := "", envWeatherToken := none, envListenPort := some "",
    configFile := .ok [] }

/-- Startup environment with an explicit `-port` flag. -/
def wenv7 : StartupEnv :=
  { tokenFlag := "k", portFlag := "7777", envWeatherToken := none, envListenPort := none,
    configFile := .ok [] }

/-- The decoded member list of `parisBody` (keys in source order, `21.5`
as the scaled decimal `215 / 10`). -/
def parisFields : JsonMembers :=
  .cons (ascii "location") (.obj (.cons (ascii "name") (.str (ascii "Paris")) .nil))
    (.cons (ascii "current")
      (.obj (.cons (ascii "temp_c") (.num 215 1)
        (.cons (ascii "condition") (.obj (.cons (ascii "text") (.str (ascii "Sunny")) .nil)) .nil)))
      .nil)

set_option maxRecDepth 40000

/-- C1: the message the handler renders is NOT the claimed clean template
`Current weather in \x7bname\x7d: \x7btemp\x7d°C - \x7bcondition\x7d`: the source bytes at
`weather.go:111` carry `C3 82 C2 B0` ("Â°", a double-encoded degree sign)
between the temperature and `C`, so an extra U+00C2 appears. Evaluated here
at the extracted triple (`Paris`, 21.5, `Sunny`): the actual message is the
claimed one with `[195, 130, 194, 176]` ("Â°") in place of `[194, 176]`
("°"). -/
theorem C1_message_has_mojibake_degree :
    mkMessage (ascii "Paris") (215, 1) (ascii "Sunny")
      = ascii "Current weather in Paris: 21.5" ++ [195, 130, 194, 176] ++ ascii "C - Sunny"
    ∧ mkMessage (ascii "Paris") (215, 1) (ascii "Sunny")
      ≠ ascii "Current weather in Paris: 21.5" ++ [194, 176] ++ ascii "C - Sunny" := by
  constructor
  · rfl
  · decide

/-- C2: on the Paris provider body the handler writes HTTP 200 with
Content-Type application/json, but the body is NOT the claimed
`\x7b"response_type":"in_channel","text":"Current weather in Paris: 21.5°C - Sunny"\x7d`:
the degree sign is the double-encoded `Â°` (`C3 82 C2 B0`) from the source's
format string. Everything else of the claim (status, header, envelope shape,
field order, values) is as claimed. -/
theorem C2_actual_response :
    handleProviderBody parisBody
      = { status := 200, contentType := some "application/json",
          body := ascii "\x7b\"response_type\":\"in_channel\",\"text\":\"Current weather in Paris: 21.5"
            ++ [195, 130, 194, 176] ++ ascii "C - Sunny\"\x7d" }
    ∧ (handleProviderBody parisBody).body
      ≠ ascii "\x7b\"response_type\":\"in_channel\",\"text\":\"Current weather in Paris: 21.5"
        ++ [194, 176] ++ ascii "C - Sunny\"\x7d" := by
  constructor
  · rfl
  · decide

/-- C3: when the `text` query parameter is absent (no `text` key in the
query) or maps to the empty string, the location the handler passes to
`callWeatherAPI` is exactly the sentinel `auto:ip` (`weather.go:93-97`). -/
theorem C3_empty_text_gives_sentinel (q : List (String × String))
    (h : q.find? (fun p => p.1 == "text") = none ∨ queryGetParam q "text" = "") :
    resolveLocation q = "auto:ip" := by
  rcases h with h | h
  · simp [resolveLocation, queryGetParam, h]
  · simp [resolveLocation, h]

/-- Witness for C3: evaluated with the parameter absent and with it empty. -/
theorem C3_witness :
    resolveLocation [] = "auto:ip" ∧ resolveLocation [("text", "")] = "auto:ip" :=
  ⟨C3_empty_text_gives_sentinel [] (Or.inl rfl),
   C3_empty_text_gives_sentinel [("text", "")] (Or.inr rfl)⟩

/-- C4 counterexample: the 500 response body is not literally the error's
text — `http.Error` (`fmt.Fprintln`) appends a newline, so the body is the
error text followed by byte 10. Shown at the error text
`connection refused`. -/
theorem C4_counterexample :
    (weatherHandler (.error (ascii "connection refused"))).status = 500
    ∧ (weatherHandler (.error (ascii "connection refused"))).body
      ≠ ascii "connection refused" := by
  constructor
  · rfl
  · decide

/-- C4 (amended): whenever the weather client returns an error, the handler
responds 500 with plain text (never the JSON envelope's application/json),
and the body is exactly the error's text followed by a newline — hence
always non-empty. No envelope is built: the response is `http.Error`'s. -/
theorem C4_error_gives_500_plain_text (e : Bytes) :
    weatherHandler (.error e) = httpError e 500
    ∧ (weatherHandler (.error e)).status = 500
    ∧ (weatherHandler (.error e)).body = e ++ [10]
    ∧ (weatherHandler (.error e)).body ≠ []
    ∧ (weatherHandler (.error e)).contentType = some "text/plain; charset=utf-8" := by
  refine ⟨rfl, rfl, rfl, ?_, rfl⟩
  simp [weatherHandler, httpError]

/-- Witness for C4 (its only hypothesis is the universally quantified error
text): evaluated at the error text `connection refused`. -/
theorem C4_witness :
    (weatherHandler (.error (ascii "connection refused"))).body
      = ascii "connection refused" ++ [10] :=
  (C4_error_gives_500_plain_text (ascii "connection refused")).2.2.1

/-- C5: on the provider body `\x7b\x7d` every extraction yields the zero value
and the request succeeds with HTTP 200 as claimed, but the message is NOT
the claimed `Current weather in : 0°C - `: the degree sign is the source's
double-encoded `Â°` (`C3 82 C2 B0`). -/
theorem C5_empty_object_zero_values :
    extract3 emptyObjBody = ([], (0, 0), [])
    ∧ handleProviderBody emptyObjBody
      = { status := 200, contentType := some "application/json",
          body := ascii "\x7b\"response_type\":\"in_channel\",\"text\":\"Current weather in : 0"
            ++ [195, 130, 194, 176] ++ ascii "C - \"\x7d" }
    ∧ mkMessage [] (0, 0) []
      ≠ ascii "Current weather in : 0" ++ [194, 176] ++ ascii "C - " := by
  refine ⟨?_, rfl, ?_⟩
  · decide
  · decide

/-- C6 counterexample: with an empty `-token` flag, `WEATHER_API_TOKEN` set
but EMPTY, and a readable config whose `apiKey` is the non-empty `secret`,
the process exits with status 2 instead of consulting and using the config
value: `os.LookupEnv` reports the variable as present, so the config branch
is skipped (`weather.go:198-210`). Under the claim the key used would be
`secret`. -/
theorem C6_counterexample :
    resolveStartup cenv6 = .exitStatus2
    ∧ configGetString [("apiKey", "secret")] "apiKey" = "secret" := by
  constructor
  · rfl
  · rfl

/-- C6 (amended): the API key is the `-token` flag if non-empty; otherwise,
if `WEATHER_API_TOKEN` is SET, its value — even the empty value, in which
case the process exits with status 2 without consulting the config;
otherwise the config file is read (an unreadable config panics) and its
`apiKey` is used, the process exiting with status 2 if that is empty. -/
theorem C6_api_key_resolution (e : StartupEnv) :
    (e.tokenFlag ≠ "" → outcomeKey (resolveStartup e) = some e.tokenFlag)
    ∧ (e.tokenFlag = "" → ∀ v, e.envWeatherToken = some v → v ≠ "" →
        outcomeKey (resolveStartup e) = some v)
    ∧ (e.tokenFlag = "" → e.envWeatherToken = some "" →
        resolveStartup e = .exitStatus2)
    ∧ (∀ msg, e.tokenFlag = "" → e.envWeatherToken = none → e.configFile = .error msg →
        resolveStartup e = .panicEarly msg)
    ∧ (∀ cfg, e.tokenFlag = "" → e.envWeatherToken = none → e.configFile = .ok cfg →
        (configGetString cfg "apiKey" = "" → resolveStartup e = .exitStatus2)
        ∧ (configGetString cfg "apiKey" ≠ "" →
            outcomeKey (resolveStartup e) = some (configGetString cfg "apiKey"))) := by
  refine ⟨?_, ?_, ?_, ?_, ?_⟩
  · intro hf
    simp [resolveStartup, resolveAPIKeySrc, hf, outcomeKey]
  · intro hf v hv hne
    simp [resolveStartup, resolveAPIKeySrc, hf, hv, hne, outcomeKey]
  · intro hf hv
    simp [resolveStartup, resolveAPIKeySrc, hf, hv]
  · intro msg hf hv hc
    simp [resolveStartup, resolveAPIKeySrc, hf, hv, hc]
  · intro cfg hf hv hc
    constructor
    · intro hk
      simp [resolveStartup, resolveAPIKeySrc, hf, hv, hc, hk]
    · intro hk
      simp [resolveStartup, resolveAPIKeySrc, hf, hv, hc, hk, outcomeKey]

/-- Witness for C6: with the flag set to `flagkey` and the environment also
set, the flag wins. -/
theorem C6_witness :
    outcomeKey (resolveStartup wenv6) = some "flagkey" :=
  (C6_api_key_resolution wenv6).1 (by decide)

/-- C7 counterexample, two independent failures of the claimed order.
With the API key from the `-token` flag, no `-port` flag and no
`MM_LISTEN_PORT`, a readable config naming `listenPort = 9999` is IGNORED
(the config is only loaded into viper when the API-key step needed it,
`weather.go:200-206` versus `229`), and the default `8080` is used. And
with `MM_LISTEN_PORT` set to the empty string, the empty value is used
as the port (nothing replaces it, `weather.go:226-238`), not `8080`. -/
theorem C7_counterexample :
    resolveStartup cenv7a = .started "k" "8080"
    ∧ configGetString [("listenPort", "9999")] "listenPort" = "9999"
    ∧ resolveStartup cenv7b = .started "k" "" := by
  refine ⟨rfl, rfl, rfl⟩

/-- Helper: a successful start determines the key and the port via
`resolveAPIKeySrc` and `resolvePort`. -/
theorem resolveStartup_started_eq (e : StartupEnv) (key port tk : String)
    (loaded : Option (List (String × String)))
    (hsrc : resolveAPIKeySrc e = .ok (tk, loaded))
    (h : resolveStartup e = .started key port) :
    key = tk ∧ port = resolvePort e loaded := by
  unfold resolveStartup at h
  rw [hsrc] at h
  by_cases hz : tk = ""
  · simp [hz] at h
  · simp [hz] at h
    exact ⟨h.1.symm, h.2.symm⟩

/-- Helper: which config (if any) viper has loaded when the process starts,
by the branch the API-key step took. -/
theorem resolveStartup_cases (e : StartupEnv) (key port : String)
    (h : resolveStartup e = .started key port) :
    ((e.tokenFlag ≠ "" ∨ e.envWeatherToken ≠ none) → port = resolvePort e none)
    ∧ (∀ cfg, e.tokenFlag = "" → e.envWeatherToken = none → e.configFile = .ok cfg →
        port = resolvePort e (some cfg))
    ∧ (∃ loaded, port = resolvePort e loaded) := by
  by_cases hf : e.tokenFlag = ""
  · cases hv : e.envWeatherToken with
    | some v =>
      have hsrc : resolveAPIKeySrc e = .ok (v, none) := by
        simp [resolveAPIKeySrc, hf, hv]
      have hp := (resolveStartup_started_eq e key port v none hsrc h).2
      refine ⟨fun _ => hp, ?_, ⟨none, hp⟩⟩
      intro cfg h1 h2 h3
      cases h2
    | none =>
      cases hc : e.configFile with
      | error msg =>
        have hp : resolveStartup e = .panicEarly msg := by
          simp [resolveStartup, resolveAPIKeySrc, hf, hv, hc]
        rw [hp] at h
        cases h
      | ok cfg =>
        have hsrc : resolveAPIKeySrc e = .ok (configGetString cfg "apiKey", some cfg) := by
          simp [resolveAPIKeySrc, hf, hv, hc]
        have hp := (resolveStartup_started_eq e key port _ (some cfg) hsrc h).2
        refine ⟨?_, ?_, ⟨some cfg, hp⟩⟩
        · intro hbad
          rcases hbad with hbad | hbad
          · exact absurd hf hbad
          · exact absurd rfl hbad
        · intro cfg2 h1 h2 h3
          cases h3
          exact hp
  · have hsrc : resolveAPIKeySrc e = .ok (e.tokenFlag, none) := by
      simp [resolveAPIKeySrc, hf]
    have hp := (resolveStartup_started_eq e key port _ none hsrc h).2
    refine ⟨fun _ => hp, ?_, ⟨none, hp⟩⟩
    intro cfg h1 h2 h3
    exact absurd h1 hf

/-- C7 (amended): when the process starts, the port is the `-port` flag if
non-empty; otherwise `MM_LISTEN_PORT`'s value whenever the variable is set
(even if empty); otherwise, the config file's `listenPort` if the config
was loaded during API-key resolution (flag and environment token both
absent) and the entry is non-empty; otherwise the default `8080`.
Port resolution itself never fails. -/
theorem C7_port_resolution (e : StartupEnv) (key port : String)
    (h : resolveStartup e = .started key port) :
    (e.portFlag ≠ "" → port = e.portFlag)
    ∧ (e.portFlag = "" → ∀ v, e.envListenPort = some v → port = v)
    ∧ (e.portFlag = "" → e.envListenPort = none →
        (e.tokenFlag ≠ "" ∨ e.envWeatherToken ≠ none) → port = defaultPort)
    ∧ (e.portFlag = "" → e.envListenPort = none → e.tokenFlag = "" →
        e.envWeatherToken = none → ∀ cfg, e.configFile = .ok cfg →
        port = (if configGetString cfg "listenPort" = "" then defaultPort
                else configGetString cfg "listenPort")) := by
  obtain ⟨hboth, hcfg, ⟨loaded, hany⟩⟩ := resolveStartup_cases e key port h
  refine ⟨?_, ?_, ?_, ?_⟩
  · intro hflag
    rw [hany]
    simp [resolvePort, hflag]
  · intro hflag v hv
    rw [hany]
    simp [resolvePort, hflag, hv]
  · intro hflag hv hsrc
    rw [hboth hsrc]
    simp [resolvePort, hflag, hv]
  · intro hflag hv htok henv cfg hc
    rw [hcfg cfg htok henv hc]
    simp [resolvePort, hflag, hv]

/-- Witness for C7: with a `-port` flag of `7777` the flag value is the
port the listener uses. -/
theorem C7_witness :
    resolveStartup wenv7 = .started "k" "7777" ∧ ("7777" : String) = wenv7.portFlag :=
  ⟨by rfl, (C7_port_resolution wenv7 "k" "7777" (by rfl)).1 (by decide)⟩

/-- Helper: `hexVal` inverts `hexDigitU` on hex digit values. -/
theorem hexVal_hexDigitU (n : Nat) (h : n < 16) : hexVal (hexDigitU n) = some n := by
  unfold hexVal hexDigitU
  by_cases h10 : n < 10
  · rw [if_pos h10, if_pos (by omega)]
    congr 1
    omega
  · rw [if_neg h10, if_neg (by omega), if_pos (by omega)]
    congr 1
    omega

/-- Helper: `url.QueryEscape` never emits `&` or `=`. -/
theorem escByteQ_ne (b c : Nat) (hc : c ∈ escByteQ b) : c ≠ 38 ∧ c ≠ 61 := by
  unfold escByteQ at hc
  by_cases hu : isUnreservedQ b
  · rw [if_pos hu] at hc
    simp at hc
    subst hc
    simp [isUnreservedQ] at hu
    omega
  · rw [if_neg hu] at hc
    by_cases hsp : b = 32
    · rw [if_pos hsp] at hc
      simp at hc
      omega
    · rw [if_neg hsp] at hc
      have hd : ∀ n : Nat, hexDigitU n ≠ 38 ∧ hexDigitU n ≠ 61 := by
        intro n
        unfold hexDigitU
        by_cases hn : n < 10 <;> simp [hn] <;> omega
      simp at hc
      rcases hc with hc | hc | hc
      · omega
      · rw [hc]
        exact hd _
      · rw [hc]
        exact hd _

/-- Helper: no byte of an escaped query value is `&` or `=`. -/
theorem queryEscape_ne (loc : Bytes) (c : Nat) (hc : c ∈ queryEscape loc) :
    c ≠ 38 ∧ c ≠ 61 := by
  unfold queryEscape at hc
  rw [List.mem_flatMap] at hc
  obtain ⟨b, _, hcb⟩ := hc
  exact escByteQ_ne b c hcb

/-- Helper: one `queryUnescape` step on a percent escape. -/
theorem queryUnescape_pct (h l : Nat) (rest : Bytes) :
    queryUnescape (37 :: h :: l :: rest)
      = (match hexVal h, hexVal l, queryUnescape rest with
         | some hv, some lv, some tl => some ((16 * hv + lv) :: tl)
         | _, _, _ => none) := by
  rfl

/-- Helper: one `queryUnescape` step on a plus sign. -/
theorem queryUnescape_plus (rest : Bytes) :
    queryUnescape (43 :: rest)
      = (match queryUnescape rest with
         | some tl => some (32 :: tl)
         | none => none) := by
  conv_lhs => rw [queryUnescape.eq_def]
  simp

/-- Helper: one `queryUnescape` step on a literal byte. -/
theorem queryUnescape_lit (b : Nat) (h37 : b ≠ 37) (h43 : b ≠ 43) (rest : Bytes) :
    queryUnescape (b :: rest)
      = (match queryUnescape rest with
         | some tl => some (b :: tl)
         | none => none) := by
  conv_lhs => rw [queryUnescape.eq_def]
  simp [h37, h43]

/-- Helper: unescaping undoes escaping, byte by byte. -/
theorem queryUnescape_queryEscape (bs : Bytes) (h : ∀ b ∈ bs, b < 256) :
    queryUnescape (queryEscape bs) = some bs := by
  induction bs with
  | nil => rfl
  | cons b tl ih =>
    have hb : b < 256 := h b (List.mem_cons_self b tl)
    have htl : queryUnescape (queryEscape tl) = some tl :=
      ih (fun x hx => h x (List.mem_cons_of_mem b hx))
    have hstep : queryEscape (b :: tl) = escByteQ b ++ queryEscape tl := by
      simp [queryEscape]
    rw [hstep]
    unfold escByteQ
    by_cases hu : isUnreservedQ b
    · rw [if_pos hu]
      have hrange : b ≠ 37 ∧ b ≠ 43 := by
        simp [isUnreservedQ] at hu
        omega
      simp only [List.cons_append, List.nil_append]
      rw [queryUnescape_lit b hrange.1 hrange.2, htl]
    · rw [if_neg hu]
      by_cases hsp : b = 32
      · rw [if_pos hsp]
        simp only [List.cons_append, List.nil_append]
        rw [queryUnescape_plus, htl, hsp]
      · rw [if_neg hsp]
        simp only [List.cons_append, List.nil_append]
        rw [queryUnescape_pct]
        rw [hexVal_hexDigitU (b / 16) (by omega), hexVal_hexDigitU (b % 16) (by omega), htl]
        have hrec : 16 * (b / 16) + b % 16 = b := by omega
        show some ((16 * (b / 16) + b % 16) :: tl) = some (b :: tl)
        rw [hrec]

/-- Helper: one `splitAmp` step. -/
theorem splitAmp_cons (b : Nat) (bs : Bytes) :
    splitAmp (b :: bs)
      = (match splitAmp bs with
         | [] => [[b]]
         | cur :: rest => if b = 38 then [] :: cur :: rest else (b :: cur) :: rest) := by
  rfl

/-- Helper: `splitAmp` never returns an empty list of segments. -/
theorem splitAmp_ne_nil (bs : Bytes) : splitAmp bs ≠ [] := by
  induction bs with
  | nil => simp [splitAmp]
  | cons b tl ih =>
    rw [splitAmp_cons]
    rcases hsp : splitAmp tl with _ | ⟨cur, rest⟩
    · simp
    · by_cases hb : b = 38 <;> simp [hb]

/-- Helper: `splitAmp` on a separator-free string. -/
theorem splitAmp_no_sep (bs : Bytes) (h : 38 ∉ bs) : splitAmp bs = [bs] := by
  induction bs with
  | nil => rfl
  | cons b tl ih =>
    have hb : b ≠ 38 := fun hc => h (hc ▸ List.mem_cons_self b tl)
    have htl := ih (fun hc => h (List.mem_cons_of_mem b hc))
    rw [splitAmp_cons, htl]
    simp [hb]

/-- Helper: `splitAmp` splits off a separator-free first segment. -/
theorem splitAmp_append (s t : Bytes) (h : 38 ∉ s) :
    splitAmp (s ++ 38 :: t) = s :: splitAmp t := by
  induction s with
  | nil =>
    rw [List.nil_append, splitAmp_cons]
    obtain ⟨cur, rest, hsp⟩ := List.exists_cons_of_ne_nil (splitAmp_ne_nil t)
    rw [hsp]
    simp
  | cons b tl ih =>
    have hb : b ≠ 38 := fun hc => h (hc ▸ List.mem_cons_self b tl)
    have htl := ih (fun hc => h (List.mem_cons_of_mem b hc))
    rw [List.cons_append, splitAmp_cons, htl]
    simp [hb]

/-- Helper: `cutEq` cuts at the first `=`. -/
theorem cutEq_append (a b : Bytes) (h : 61 ∉ a) : cutEq (a ++ 61 :: b) = (a, b) := by
  induction a with
  | nil => simp [cutEq]
  | cons x xs ih =>
    have hx : x ≠ 61 := fun hc => h (hc ▸ List.mem_cons_self x xs)
    have hxs := ih (fun hc => h (List.mem_cons_of_mem x hc))
    simp only [List.cons_append, cutEq]
    rw [if_neg hx, List.append_eq, hxs]

/-- C8: for every location byte string, the `q` parameter of the query
string built at `weather.go:140-142` is exactly `url.QueryEscape` of the
location, applied once: decoding the parameter once with
`url.QueryUnescape` returns the original location (so reserved characters
are escaped exactly once, with no double-encoding of the escape
sequences). The API key is assumed free of `&`, otherwise it would corrupt
the query-string structure around it. -/
theorem C8_location_escaped_once (key loc : Bytes) (hk : 38 ∉ key)
    (hloc : ∀ b ∈ loc, b < 256) :
    qGet (urlQuery key loc) (ascii "q") = some (queryEscape loc)
    ∧ queryUnescape (queryEscape loc) = some loc := by
  constructor
  · have hs1 : 38 ∉ ascii "key=" ++ key := by
      intro hmem
      rcases List.mem_append.mp hmem with hmem | hmem
      · revert hmem
        decide
      · exact hk hmem
    have hs2 : 38 ∉ ascii "q=" ++ queryEscape loc := by
      intro hmem
      rcases List.mem_append.mp hmem with hmem | hmem
      · revert hmem
        decide
      · exact (queryEscape_ne loc 38 hmem).1 rfl
    have hshape : urlQuery key loc
        = (ascii "key=" ++ key) ++ 38 :: ((ascii "q=" ++ queryEscape loc) ++ 38 :: ascii "aqi=no") := by
      simp [urlQuery, ascii]
    have hsplit : splitAmp (urlQuery key loc)
        = (ascii "key=" ++ key) :: (ascii "q=" ++ queryEscape loc) :: [ascii "aqi=no"] := by
      rw [hshape, splitAmp_append _ _ hs1, splitAmp_append _ _ hs2,
        splitAmp_no_sep _ (by decide)]
    have hcut1 : cutEq (ascii "key=" ++ key) = (ascii "key", key) := by
      have hsh : ascii "key=" ++ key = ascii "key" ++ 61 :: key := by
        simp [ascii]
      rw [hsh, cutEq_append _ _ (by decide)]
    have hcut2 : cutEq (ascii "q=" ++ queryEscape loc) = (ascii "q", queryEscape loc) := by
      have hsh : ascii "q=" ++ queryEscape loc = ascii "q" ++ 61 :: queryEscape loc := by
        simp [ascii]
      rw [hsh, cutEq_append _ _ (by decide)]
    have hne : ascii "key" ≠ ascii "q" := by decide
    unfold qGet qValues
    rw [hsplit]
    simp [hcut1, hcut2, hne]
  · exact queryUnescape_queryEscape loc hloc

/-- Witness for C8: evaluated at the API key `k` and the location
`New York,US` from the spec's example. -/
theorem C8_witness :
    qGet (urlQuery (ascii "k") (ascii "New York,US")) (ascii "q")
      = some (queryEscape (ascii "New York,US"))
    ∧ queryUnescape (queryEscape (ascii "New York,US")) = some (ascii "New York,US") :=
  C8_location_escaped_once (ascii "k") (ascii "New York,US") (by decide) (by decide)

/-- C10 counterexample: the provider body `null` is valid JSON whose top
level is not an object, yet the client does NOT return an error:
`json.Unmarshal` stores JSON null into a nil map without error, the nil map
re-encodes as `null`, and the request is answered with HTTP 200 (with the
zero-value message). -/
theorem C10_counterexample :
    parseJson (ascii "null") = some .null
    ∧ callWeatherAPIBody (ascii "null") = .ok (ascii "null")
    ∧ (handleProviderBody (ascii "null")).status = 200 :=
  ⟨rfl, rfl, rfl⟩

/-- C10 (amended): for every provider body that is valid JSON whose top
level is neither an object nor `null`, the client returns an error (never
the body) and the inbound request is answered with HTTP 500 even though
the body was decodable JSON. -/
theorem C10_non_object_gives_500 (body : Bytes) (v : Json)
    (hp : parseJson body = some v) (hnull : v ≠ .null) (hobj : ∀ fs, v ≠ .obj fs) :
    callWeatherAPIBody body
      = .error (ascii "json: cannot unmarshal value into Go value of type map")
    ∧ (handleProviderBody body).status = 500
    ∧ (handleProviderBody body).contentType = some "text/plain; charset=utf-8" := by
  have hcall : callWeatherAPIBody body
      = .error (ascii "json: cannot unmarshal value into Go value of type map") := by
    unfold callWeatherAPIBody
    rw [hp]
    cases v with
    | null => exact absurd rfl hnull
    | obj fs => exact absurd rfl (hobj fs)
    | bool b => rfl
    | num m k => rfl
    | str s => rfl
    | arr xs => rfl
  refine ⟨hcall, ?_, ?_⟩ <;> simp [handleProviderBody, hcall, weatherHandler, httpError]

/-- Witness for C10: evaluated at the provider body `[1,2]`. -/
theorem C10_witness :
    callWeatherAPIBody (ascii "[1,2]")
      = .error (ascii "json: cannot unmarshal value into Go value of type map")
    ∧ (handleProviderBody (ascii "[1,2]")).status = 500 :=
  have h := C10_non_object_gives_500 (ascii "[1,2]")
    (.arr (.cons (.num 1 0) (.cons (.num 2 0) .nil))) rfl
    (by intro hc; cases hc) (by intro fs hc; cases hc)
  ⟨h.1, h.2.1⟩

/-- Helper: `digitsVal`'s fold with a general accumulator. -/
theorem digitsVal_foldl (ds : Bytes) (a : Nat) :
    ds.foldl (fun x b => x * 10 + (b - 48)) a = a * 10 ^ ds.length + digitsVal ds := by
  induction ds generalizing a with
  | nil => simp [digitsVal]
  | cons d tl ih =>
    simp only [List.foldl_cons, List.length_cons, digitsVal]
    rw [ih (a * 10 + (d - 48)), ih (0 * 10 + (d - 48))]
    ring

/-- Helper: the value of concatenated digit runs. -/
theorem digitsVal_append (xs ys : Bytes) :
    digitsVal (xs ++ ys) = digitsVal xs * 10 ^ ys.length + digitsVal ys := by
  unfold digitsVal
  rw [List.foldl_append]
  exact digitsVal_foldl ys (List.foldl (fun x b => x * 10 + (b - 48)) 0 xs)

/-- Helper: correctness of the fuelled digit rendering. -/
theorem natDigitsGo_spec : ∀ fuel n, n < fuel →
    natDigitsGo fuel n ≠ [] ∧ digitsVal (natDigitsGo fuel n) = n
      ∧ (∀ b ∈ natDigitsGo fuel n, 48 ≤ b ∧ b ≤ 57) := by
  intro fuel
  induction fuel with
  | zero => intro n h; omega
  | succ f ih =>
    intro n h
    by_cases h10 : n < 10
    · refine ⟨by simp [natDigitsGo, h10], ?_, ?_⟩
      · simp [natDigitsGo, h10, digitsVal]
      · intro b hb
        simp [natDigitsGo, h10] at hb
        omega
    · obtain ⟨hne, hval, hdig⟩ := ih (n / 10) (by omega)
      have hstep : natDigitsGo (f + 1) n = natDigitsGo f (n / 10) ++ [48 + n % 10] := by
        simp [natDigitsGo, h10]
      refine ⟨by simp [hstep], ?_, ?_⟩
      · rw [hstep, digitsVal_append, hval]
        simp [digitsVal]
        omega
      · intro b hb
        rw [hstep] at hb
        rcases List.mem_append.mp hb with hb | hb
        · exact hdig b hb
        · simp at hb
          omega

/-- Helper: leading digit of a positive number is non-zero. -/
theorem natDigitsGo_head : ∀ fuel n, n < fuel → 1 ≤ n →
    ∃ d t, natDigitsGo fuel n = d :: t ∧ 49 ≤ d ∧ d ≤ 57 := by
  intro fuel
  induction fuel with
  | zero => intro n h; omega
  | succ f ih =>
    intro n h h1
    by_cases h10 : n < 10
    · exact ⟨48 + n, [], by simp [natDigitsGo, h10], by omega, by omega⟩
    · obtain ⟨d, t, hdt, hd1, hd2⟩ := ih (n / 10) (by omega) (by omega)
      refine ⟨d, t ++ [48 + n % 10], ?_, hd1, hd2⟩
      simp [natDigitsGo, h10, hdt]

/-- Helper: `natDigits` facts (non-empty, value, digit range). -/
theorem natDigits_spec (n : Nat) :
    natDigits n ≠ [] ∧ digitsVal (natDigits n) = n
      ∧ (∀ b ∈ natDigits n, 48 ≤ b ∧ b ≤ 57) :=
  natDigitsGo_spec (n + 1) n (by omega)

/-- Helper: head of `natDigits n` for positive `n`. -/
theorem natDigits_head (n : Nat) (h1 : 1 ≤ n) :
    ∃ d t, natDigits n = d :: t ∧ 49 ≤ d ∧ d ≤ 57 :=
  natDigitsGo_head (n + 1) n (by omega) h1

/-- Helper: `takeWhile`/`dropWhile` across an all-true prefix followed by a
boundary. -/
theorem takeWhile_all_append (p : Nat → Bool) (xs rest : Bytes)
    (hall : ∀ b ∈ xs, p b = true)
    (hrest : headNotP p rest) :
    (xs ++ rest).takeWhile p = xs ∧ (xs ++ rest).dropWhile p = rest := by
  induction xs with
  | nil =>
    cases rest with
    | nil => simp
    | cons c t =>
      simp only [List.nil_append]
      simp [headNotP] at hrest
      simp [List.takeWhile_cons, List.dropWhile_cons, hrest]
  | cons x xs ih =>
    have hx : p x = true := hall x (List.mem_cons_self x xs)
    have := ih (fun b hb => hall b (List.mem_cons_of_mem x hb))
    simp only [List.cons_append, List.takeWhile_cons, List.dropWhile_cons, hx]
    simp [this.1, this.2]

/-- Helper: `stripZerosN` is the identity on normalised scaled decimals. -/
theorem stripZerosN_canon (n k : Nat) (hc : k = 0 ∨ n % 10 ≠ 0) :
    stripZerosN n k = (n, k) := by
  cases k with
  | zero => rfl
  | succ k0 =>
    rcases hc with hc | hc
    · omega
    · simp [stripZerosN, hc]

/-- Helper: `pNumTail` at a number boundary returns the read number. -/
theorem pNumTail_boundary (neg : Bool) (n k : Nat) (r : Bytes) (hb : numBoundary r)
    (hc : k = 0 ∨ n % 10 ≠ 0) :
    pNumTail neg n k r = some (mkNum neg (n, k), r) := by
  cases r with
  | nil => simp [pNumTail, stripZerosN_canon n k hc]
  | cons c t =>
    obtain ⟨h1, h2, h3, h4⟩ := hb
    have hne : ¬(c = 101 ∨ c = 69) := by
      rintro (hcc | hcc) <;> [exact h3 hcc; exact h4 hcc]
    simp [pNumTail, hne, stripZerosN_canon n k hc]

/-- Helper: `natDigits` of a small number. -/
theorem natDigits_lt10 (n : Nat) (h : n < 10) : natDigits n = [48 + n] := by
  simp [natDigits, natDigitsGo, h]

/-- Helper: two or more digits mean the number is at least ten. -/
theorem natDigits_length_ge2 (n : Nat) (h : 2 ≤ (natDigits n).length) : 10 ≤ n := by
  by_contra h10
  rw [natDigits_lt10 n (by omega)] at h
  simp at h

/-- Helper: the value of a run of zero digits. -/
theorem digitsVal_zeroBytes (j : Nat) : digitsVal (zeroBytes j) = 0 := by
  induction j with
  | zero => rfl
  | succ j0 ih =>
    have hstep : zeroBytes (j0 + 1) = 48 :: zeroBytes j0 := rfl
    rw [hstep]
    simpa [digitsVal] using ih

/-- Helper: the leading-zero rejection does not fire on `natDigits`. -/
theorem natDigits_no_leading_zero (n : Nat) :
    ¬(2 ≤ (natDigits n).length ∧ (natDigits n).headI = 48) := by
  rintro ⟨hl, hh⟩
  have h10 := natDigits_length_ge2 n hl
  obtain ⟨d, t, hdt, hd1, _⟩ := natDigits_head n (by omega)
  rw [hdt] at hh
  simp [List.headI] at hh
  omega

/-- Helper: `pNumAfterInt` on the empty remainder. -/
theorem pNumAfterInt_nil (neg : Bool) (n : Nat) :
    pNumAfterInt neg n [] = pNumTail neg n 0 [] := rfl

/-- Helper: `pNumAfterInt` when no fraction follows. -/
theorem pNumAfterInt_nofrac (neg : Bool) (n c : Nat) (rr : Bytes) (h46 : c ≠ 46) :
    pNumAfterInt neg n (c :: rr) = pNumTail neg n 0 (c :: rr) := by
  simp [pNumAfterInt, h46]

/-- Helper: `pNumAfterInt` on a fraction. -/
theorem pNumAfterInt_frac (neg : Bool) (n : Nat) (rr : Bytes) :
    pNumAfterInt neg n (46 :: rr)
      = (if rr.takeWhile isDigitB = [] then none
         else pNumTail neg
           (n * 10 ^ (rr.takeWhile isDigitB).length + digitsVal (rr.takeWhile isDigitB))
           (rr.takeWhile isDigitB).length (rr.dropWhile isDigitB)) := by
  simp [pNumAfterInt]

/-- Helper: one `pNum` step. -/
theorem pNum_cons (b : Nat) (tail : Bytes) :
    pNum (b :: tail) = if b = 45 then pNumMag true tail else pNumMag false (b :: tail) := rfl

/-- Helper: `numBoundary` gives a digit boundary. -/
theorem numBoundary_headNot (rest : Bytes) (hb : numBoundary rest) :
    headNotP isDigitB rest := by
  cases rest with
  | nil => trivial
  | cons c t => exact hb.1

/-- Helper: `pNumMag` reads back `encNumNat`. -/
theorem pNumMag_encNumNat (neg : Bool) (n k : Nat) (hc : k = 0 ∨ n % 10 ≠ 0)
    (rest : Bytes) (hb : numBoundary rest) :
    pNumMag neg (encNumNat n k ++ rest) = some (mkNum neg (n, k), rest) := by
  obtain ⟨hne, hval, hdig⟩ := natDigits_spec n
  by_cases hk : k = 0
  · subst hk
    have henc : encNumNat n 0 = natDigits n := by simp [encNumNat]
    rw [henc]
    obtain ⟨htake, hdrop⟩ := takeWhile_all_append isDigitB (natDigits n) rest
      (fun b hbm => by simp [isDigitB]; exact (hdig b hbm)) (numBoundary_headNot rest hb)
    unfold pNumMag
    simp only [htake, hdrop]
    rw [if_neg (by simp [hne]), if_neg (natDigits_no_leading_zero n), hval]
    cases rest with
    | nil =>
      rw [pNumAfterInt_nil]
      exact pNumTail_boundary neg n 0 [] trivial (Or.inl rfl)
    | cons c t =>
      rw [pNumAfterInt_nofrac neg n c t hb.2.1]
      exact pNumTail_boundary neg n 0 (c :: t) hb (Or.inl rfl)
  · have hcz : n % 10 ≠ 0 := by
      rcases hc with hc | hc
      · omega
      · exact hc
    by_cases hlt : k < (natDigits n).length
    · set ds := natDigits n with hds
      have hlen_take : (ds.take (ds.length - k)).length = ds.length - k := by
        simp
      have hlen_drop : (ds.drop (ds.length - k)).length = k := by
        simp
        omega
      have htake_ne : ds.take (ds.length - k) ≠ [] := by
        intro hcon
        have hlc := congrArg List.length hcon
        rw [hlen_take] at hlc
        simp at hlc
        omega
      have hdrop_ne : ds.drop (ds.length - k) ≠ [] := by
        intro hcon
        have hlc := congrArg List.length hcon
        rw [hlen_drop] at hlc
        simp at hlc
        omega
      have hshape : encNumNat n k ++ rest
          = ds.take (ds.length - k) ++ (46 :: (ds.drop (ds.length - k) ++ rest)) := by
        simp only [encNumNat, if_neg hk, if_pos hlt, ← hds]
        simp
      rw [hshape]
      obtain ⟨htake, hdrop⟩ := takeWhile_all_append isDigitB (ds.take (ds.length - k))
        (46 :: (ds.drop (ds.length - k) ++ rest))
        (fun b hbm => by simp [isDigitB]; exact hdig b (List.take_subset _ _ hbm))
        (by simp [headNotP, isDigitB])
      unfold pNumMag
      simp only [htake, hdrop]
      rw [if_neg (by simp [htake_ne])]
      have hnolead : ¬(2 ≤ (ds.take (ds.length - k)).length
          ∧ (ds.take (ds.length - k)).headI = 48) := by
        rintro ⟨hl, hh⟩
        have h2 : 2 ≤ ds.length := by
          rw [hlen_take] at hl
          omega
        have h10 := natDigits_length_ge2 n h2
        obtain ⟨d, t, hdt, hd1, _⟩ := natDigits_head n (by omega)
        rw [← hds] at hdt
        obtain ⟨j, hj⟩ : ∃ j, ds.length - k = j + 1 := ⟨ds.length - k - 1, by omega⟩
        rw [hj, hdt, List.take_succ_cons] at hh
        simp [List.headI] at hh
        omega
      rw [if_neg hnolead, pNumAfterInt_frac]
      obtain ⟨htake2, hdrop2⟩ := takeWhile_all_append isDigitB (ds.drop (ds.length - k)) rest
        (fun b hbm => by simp [isDigitB]; exact hdig b (List.drop_subset _ _ hbm))
        (numBoundary_headNot rest hb)
      simp only [htake2, hdrop2]
      rw [if_neg (by simp [hdrop_ne])]
      have hvals : digitsVal (ds.take (ds.length - k)) * 10 ^ (ds.drop (ds.length - k)).length
          + digitsVal (ds.drop (ds.length - k)) = n := by
        rw [← digitsVal_append, List.take_append_drop, hval]
      rw [hvals, hlen_drop]
      exact pNumTail_boundary neg n k rest hb (Or.inr hcz)
    · set ds := natDigits n with hds
      have hshape : encNumNat n k ++ rest
          = 48 :: 46 :: ((zeroBytes (k - ds.length) ++ ds) ++ rest) := by
        simp only [encNumNat, if_neg hk, if_neg hlt, ← hds]
        simp
      rw [hshape]
      unfold pNumMag
      have hstep1 : (48 :: 46 :: ((zeroBytes (k - ds.length) ++ ds) ++ rest)).takeWhile isDigitB
          = [48] := by
        simp [List.takeWhile_cons, isDigitB]
      have hstep2 : (48 :: 46 :: ((zeroBytes (k - ds.length) ++ ds) ++ rest)).dropWhile isDigitB
          = 46 :: ((zeroBytes (k - ds.length) ++ ds) ++ rest) := by
        simp [List.dropWhile_cons, isDigitB]
      simp only [hstep1, hstep2]
      rw [if_neg (by simp), if_neg (by simp), pNumAfterInt_frac]
      have hall : ∀ b ∈ zeroBytes (k - ds.length) ++ ds, isDigitB b = true := by
        intro b hbm
        rcases List.mem_append.mp hbm with hbm | hbm
        · have hbz := List.eq_of_mem_replicate hbm
          simp [isDigitB, hbz]
        · simp [isDigitB]
          exact hdig b hbm
      obtain ⟨htake2, hdrop2⟩ := takeWhile_all_append isDigitB
        (zeroBytes (k - ds.length) ++ ds) rest hall (numBoundary_headNot rest hb)
      simp only [htake2, hdrop2]
      rw [if_neg (by simp [hne])]
      have hfdslen : (zeroBytes (k - ds.length) ++ ds).length = k := by
        simp [zeroBytes]
        omega
      have hfdsval : digitsVal [48] * 10 ^ (zeroBytes (k - ds.length) ++ ds).length
          + digitsVal (zeroBytes (k - ds.length) ++ ds) = n := by
        rw [digitsVal_append, digitsVal_zeroBytes, hval]
        simp [digitsVal]
      rw [hfdsval, hfdslen]
      exact pNumTail_boundary neg n k rest hb (Or.inr hcz)

/-- Helper: head byte of `encNumNat` is a digit. -/
theorem encNumNat_head (n k : Nat) :
    ∃ c t, encNumNat n k = c :: t ∧ 48 ≤ c ∧ c ≤ 57 := by
  obtain ⟨hne, hval, hdig⟩ := natDigits_spec n
  by_cases hk : k = 0
  · subst hk
    cases hnd : natDigits n with
    | nil => exact absurd hnd hne
    | cons c t =>
      have hc := hdig c (by rw [hnd]; exact List.mem_cons_self c t)
      exact ⟨c, t, by simp [encNumNat, hnd], hc.1, hc.2⟩
  · by_cases hlt : k < (natDigits n).length
    · cases hnd : natDigits n with
      | nil => exact absurd hnd hne
      | cons c t =>
        have hc := hdig c (by rw [hnd]; exact List.mem_cons_self c t)
        obtain ⟨j, hj⟩ : ∃ j, (natDigits n).length - k = j + 1 :=
          ⟨(natDigits n).length - k - 1, by omega⟩
        refine ⟨c, t.take j ++ 46 :: t.drop j, ?_, hc.1, hc.2⟩
        simp only [encNumNat, if_neg hk, if_pos hlt]
        rw [hj, hnd, List.take_succ_cons]
        simp
    · refine ⟨48, 46 :: (zeroBytes (k - (natDigits n).length) ++ natDigits n), ?_, by omega,
        by omega⟩
      simp [encNumNat, hk, hlt]

/-- Helper: `pNum` reads back `encNum` (a complete number roundtrip). -/
theorem pNum_encNum (m : Int) (k : Nat) (hc : k = 0 ∨ m.natAbs % 10 ≠ 0)
    (rest : Bytes) (hb : numBoundary rest) :
    pNum (encNum m k ++ rest) = some ((m, k), rest) := by
  by_cases hm : m < 0
  · have henc : encNum m k = 45 :: encNumNat m.natAbs k := by
      simp [encNum, hm]
    rw [henc, List.cons_append, pNum_cons]
    rw [if_pos (show (45 : Nat) = 45 from rfl)]
    rw [pNumMag_encNumNat true m.natAbs k hc rest hb]
    have hmk : mkNum true (m.natAbs, k) = (m, k) := by
      have h1 : ((m.natAbs : Int)) = -m := by omega
      simp [mkNum, h1]
    rw [hmk]
  · have henc : encNum m k = encNumNat m.natAbs k := by
      simp [encNum, hm]
    obtain ⟨c, t, hct, hc1, hc2⟩ := encNumNat_head m.natAbs k
    rw [henc, hct, List.cons_append, pNum_cons]
    rw [if_neg (show ¬c = 45 by omega)]
    rw [← List.cons_append, ← hct]
    rw [pNumMag_encNumNat false m.natAbs k hc rest hb]
    have hmk : mkNum false (m.natAbs, k) = (m, k) := by
      have h1 : ((m.natAbs : Int)) = m := by omega
      simp [mkNum, h1]
    rw [hmk]

/-- Helper: `hexVal` inverts `hexDigitL` on hex digit values. -/
theorem hexVal_hexDigitL (n : Nat) (h : n < 16) : hexVal (hexDigitL n) = some n := by
  unfold hexVal hexDigitL
  by_cases h10 : n < 10
  · rw [if_pos h10, if_pos (by omega)]
    congr 1
    omega
  · rw [if_neg h10, if_neg (by omega), if_neg (by omega), if_pos (by omega)]
    congr 1
    omega

/-- Helper: ASCII code points are one UTF-8 byte. -/
theorem utf8Enc_ascii (b : Nat) (h : b < 128) : utf8Enc b = [b] := by
  simp [utf8Enc, h]

/-- Helper: one `pStr` step on the closing quote. -/
theorem pStr_quote (f : Nat) (rest : Bytes) : pStr (f + 1) (34 :: rest) = some ([], rest) := rfl

/-- Helper: one `pStr` step on a single-character escape. -/
theorem pStr_esc (f e d : Nat) (hne : e ≠ 117) (hd : escCode e = some d) (rest2 : Bytes) :
    pStr (f + 1) (92 :: e :: rest2)
      = (match pStr f rest2 with
         | some (s, r) => some (d :: s, r)
         | none => none) := by
  conv_lhs => rw [pStr.eq_def]
  simp [hne, hd]

/-- Helper: one `pStr` step on a `\uXXXX` escape. -/
theorem pStr_u (f h1 h2 h3 h4 : Nat) (rest3 : Bytes) :
    pStr (f + 1) (92 :: 117 :: h1 :: h2 :: h3 :: h4 :: rest3)
      = (match hexVal h1, hexVal h2, hexVal h3, hexVal h4 with
         | some v1, some v2, some v3, some v4 =>
           (match pStr f rest3 with
            | some (s, r) => some (utf8Enc (((v1 * 16 + v2) * 16 + v3) * 16 + v4) ++ s, r)
            | none => none)
         | _, _, _, _ => none) := by
  conv_lhs => rw [pStr.eq_def]
  simp

/-- Helper: one `pStr` step on a literal byte. -/
theorem pStr_lit (f b : Nat) (h34 : b ≠ 34) (h92 : b ≠ 92) (rest : Bytes) :
    pStr (f + 1) (b :: rest)
      = (match pStr f rest with
         | some (s, r) => some (b :: s, r)
         | none => none) := by
  conv_lhs => rw [pStr.eq_def]
  simp [h34, h92]

/-- Helper: `pStr` reads back `escContent` (string-content roundtrip);
a fuel unit per source byte suffices. -/
theorem pStr_escContent : ∀ (s : Bytes) (rest : Bytes) (fuel : Nat), s.length + 1 ≤ fuel →
    pStr fuel (escContent s ++ 34 :: rest) = some (s, rest) := by
  intro s
  induction s with
  | nil =>
    intro rest fuel hf
    cases fuel with
    | zero => omega
    | succ f =>
      show pStr (f + 1) (34 :: rest) = some ([], rest)
      exact pStr_quote f rest
  | cons b s ih =>
    intro rest fuel hf
    cases fuel with
    | zero => omega
    | succ f =>
      have hrec := ih rest f (by simp at hf; omega)
      have hstep : escContent (b :: s) = escByteJ b ++ escContent s := by
        simp [escContent]
      rw [hstep, List.append_assoc]
      by_cases hb34 : b = 34
      · subst hb34
        rw [show escByteJ 34 = [92, 34] from rfl]
        rw [show ([92, 34] : Bytes) ++ (escContent s ++ 34 :: rest)
          = 92 :: 34 :: (escContent s ++ 34 :: rest) from rfl]
        rw [pStr_esc f 34 34 (by decide) rfl, hrec]
      by_cases hb92 : b = 92
      · subst hb92
        rw [show escByteJ 92 = [92, 92] from rfl]
        rw [show ([92, 92] : Bytes) ++ (escContent s ++ 34 :: rest)
          = 92 :: 92 :: (escContent s ++ 34 :: rest) from rfl]
        rw [pStr_esc f 92 92 (by decide) rfl, hrec]
      by_cases hb10 : b = 10
      · subst hb10
        rw [show escByteJ 10 = [92, 110] from rfl]
        rw [show ([92, 110] : Bytes) ++ (escContent s ++ 34 :: rest)
          = 92 :: 110 :: (escContent s ++ 34 :: rest) from rfl]
        rw [pStr_esc f 110 10 (by decide) rfl, hrec]
      by_cases hb13 : b = 13
      · subst hb13
        rw [show escByteJ 13 = [92, 114] from rfl]
        rw [show ([92, 114] : Bytes) ++ (escContent s ++ 34 :: rest)
          = 92 :: 114 :: (escContent s ++ 34 :: rest) from rfl]
        rw [pStr_esc f 114 13 (by decide) rfl, hrec]
      by_cases hb9 : b = 9
      · subst hb9
        rw [show escByteJ 9 = [92, 116] from rfl]
        rw [show ([92, 116] : Bytes) ++ (escContent s ++ 34 :: rest)
          = 92 :: 116 :: (escContent s ++ 34 :: rest) from rfl]
        rw [pStr_esc f 116 9 (by decide) rfl, hrec]
      by_cases hcond : b = 60 ∨ b = 62 ∨ b = 38 ∨ b < 32
      · have hesc : escByteJ b = [92, 117, 48, 48, hexDigitL (b / 16), hexDigitL (b % 16)] := by
          unfold escByteJ
          rw [if_neg hb34, if_neg hb92, if_neg hb10, if_neg hb13, if_neg hb9, if_pos hcond]
        have hb128 : b < 128 := by
          rcases hcond with h | h | h | h <;> omega
        rw [hesc]
        rw [show ([92, 117, 48, 48, hexDigitL (b / 16), hexDigitL (b % 16)] : Bytes)
            ++ (escContent s ++ 34 :: rest)
          = 92 :: 117 :: 48 :: 48 :: hexDigitL (b / 16) :: hexDigitL (b % 16)
            :: (escContent s ++ 34 :: rest) from rfl]
        rw [pStr_u]
        rw [show hexVal 48 = some 0 from rfl]
        rw [hexVal_hexDigitL (b / 16) (by omega), hexVal_hexDigitL (b % 16) (by omega)]
        rw [hrec]
        have harith : ((0 * 16 + 0) * 16 + b / 16) * 16 + b % 16 = b := by omega
        show some (utf8Enc (((0 * 16 + 0) * 16 + b / 16) * 16 + b % 16) ++ s, rest)
          = some (b :: s, rest)
        rw [harith, utf8Enc_ascii b hb128]
        rfl
      · have hesc : escByteJ b = [b] := by
          unfold escByteJ
          rw [if_neg hb34, if_neg hb92, if_neg hb10, if_neg hb13, if_neg hb9, if_neg hcond]
        rw [hesc]
        rw [show ([b] : Bytes) ++ (escContent s ++ 34 :: rest)
          = b :: (escContent s ++ 34 :: rest) from rfl]
        rw [pStr_lit f b hb34 hb92, hrec]

/-- Helper: escaping never shortens a string. -/
theorem escContent_length_ge (s : Bytes) : s.length ≤ (escContent s).length := by
  induction s with
  | nil => simp [escContent]
  | cons b s ih =>
    have hstep : escContent (b :: s) = escByteJ b ++ escContent s := by
      simp [escContent]
    have hb1 : 1 ≤ (escByteJ b).length := by
      unfold escByteJ
      split_ifs <;> simp
    rw [hstep]
    simp only [List.length_append, List.length_cons]
    omega

/-- Helper: `skipWs` keeps a non-whitespace-headed list. -/
theorem skipWs_not_ws (b : Nat) (t : Bytes) (h : isWsB b = false) : skipWs (b :: t) = b :: t := by
  simp [skipWs, List.dropWhile_cons, h]

/-- Helper: head byte of `encNum`. -/
theorem encNum_head (m : Int) (k : Nat) :
    ∃ c t, encNum m k = c :: t ∧ (c = 45 ∨ (48 ≤ c ∧ c ≤ 57)) := by
  by_cases hm : m < 0
  · exact ⟨45, encNumNat m.natAbs k, by simp [encNum, hm], Or.inl rfl⟩
  · obtain ⟨c, t, hct, h1, h2⟩ := encNumNat_head m.natAbs k
    exact ⟨c, t, by simp [encNum, hm, hct], Or.inr ⟨h1, h2⟩⟩

/-- Helper: head byte of every rendered value, with its possible values. -/
theorem encV_head (v : Json) :
    ∃ c t, encV v = c :: t
      ∧ (c = 110 ∨ c = 116 ∨ c = 102 ∨ c = 34 ∨ c = 91 ∨ c = 123 ∨ c = 45
         ∨ (48 ≤ c ∧ c ≤ 57)) := by
  cases v with
  | null => exact ⟨110, _, rfl, by omega⟩
  | bool b =>
    cases b with
    | true => exact ⟨116, _, rfl, by omega⟩
    | false => exact ⟨102, _, rfl, by omega⟩
  | num m k =>
    obtain ⟨c, t, hct, hcs⟩ := encNum_head m k
    exact ⟨c, t, by simp [encV, hct], by omega⟩
  | str s => exact ⟨34, escContent s ++ [34], by simp [encV], by omega⟩
  | arr xs => exact ⟨91, encItems xs ++ [93], by simp [encV], by omega⟩
  | obj fs => exact ⟨123, encFields fs ++ [125], by simp [encV], by omega⟩

/-- Helper: head exposure of a non-empty element rendering. -/
theorem encItems_cons_head (v : Json) (vs : JsonList) (c : Nat) (t : Bytes)
    (hct : encV v = c :: t) :
    ∃ t2, encItems (.cons v vs) = c :: t2 := by
  cases vs with
  | nil => exact ⟨t, by simp [encItems, hct]⟩
  | cons w ws => exact ⟨t ++ 44 :: encItems (.cons w ws), by simp [encItems, hct]⟩

/-- Helper: one `pValue` step into the number branch. -/
theorem pValue_step_num (f b : Nat) (rest : Bytes) (hws : isWsB b = false)
    (h1 : b ≠ 110) (h2 : b ≠ 116) (h3 : b ≠ 102) (h4 : b ≠ 34) (h5 : b ≠ 91) (h6 : b ≠ 123) :
    pValue (f + 1) (b :: rest)
      = (match pNum (b :: rest) with
         | some ((m, k), r) => some (.num m k, r)
         | none => none) := by
  conv_lhs => rw [pValue.eq_def]
  simp [skipWs_not_ws b rest hws, h1, h2, h3, h4, h5, h6]

/-- Helper: one `pValue` step into the string branch. -/
theorem pValue_step_str (f : Nat) (rest : Bytes) :
    pValue (f + 1) (34 :: rest)
      = (match pStr rest.length rest with
         | some (s, r) => some (.str s, r)
         | none => none) := by
  conv_lhs => rw [pValue.eq_def]
  simp [skipWs_not_ws 34 rest (by decide)]

/-- Helper: one `pValue` step into a non-empty array. -/
theorem pValue_step_arr (f : Nat) (rest1 : Bytes) (c : Nat) (r : Bytes)
    (hsk : skipWs rest1 = c :: r) (hc93 : c ≠ 93) :
    pValue (f + 1) (91 :: rest1)
      = (match pElems f (c :: r) with
         | some (xs, r2) => some (.arr xs, r2)
         | none => none) := by
  conv_lhs => rw [pValue.eq_def]
  simp [skipWs_not_ws 91 rest1 (by decide), hsk, hc93]

/-- Helper: one `pValue` step into a non-empty object. -/
theorem pValue_step_obj (f : Nat) (rest1 : Bytes) (c : Nat) (r : Bytes)
    (hsk : skipWs rest1 = c :: r) (hc125 : c ≠ 125) :
    pValue (f + 1) (123 :: rest1)
      = (match pMembers f (c :: r) with
         | some (fs, r2) => some (.obj fs, r2)
         | none => none) := by
  conv_lhs => rw [pValue.eq_def]
  simp [skipWs_not_ws 123 rest1 (by decide), hsk, hc125]

/-- Helper: `pElems` closing on the last element. -/
theorem pElems_close (f : Nat) (input : Bytes) (v : Json) (r2 : Bytes)
    (hv : pValue f input = some (v, 93 :: r2)) :
    pElems (f + 1) input = some (.cons v .nil, r2) := by
  conv_lhs => rw [pElems.eq_def]
  simp [hv, skipWs_not_ws 93 r2 (by decide)]

/-- Helper: `pElems` stepping over a comma. -/
theorem pElems_comma (f : Nat) (input : Bytes) (v : Json) (r2 : Bytes)
    (xs : JsonList) (r3 : Bytes)
    (hv : pValue f input = some (v, 44 :: r2)) (hx : pElems f r2 = some (xs, r3)) :
    pElems (f + 1) input = some (.cons v xs, r3) := by
  conv_lhs => rw [pElems.eq_def]
  simp [hv, skipWs_not_ws 44 r2 (by decide), hx]

/-- Helper: `pMembers` reading the last member. -/
theorem pMembers_close (f : Nat) (rest1 : Bytes) (key : Bytes) (r : Bytes)
    (v : Json) (r3 : Bytes)
    (hstr : pStr rest1.length rest1 = some (key, 58 :: r))
    (hv : pValue f r = some (v, 125 :: r3)) :
    pMembers (f + 1) (34 :: rest1) = some (.cons key v .nil, r3) := by
  conv_lhs => rw [pMembers.eq_def]
  simp [skipWs_not_ws 34 rest1 (by decide), hstr, skipWs_not_ws 58 r (by decide), hv,
    skipWs_not_ws 125 r3 (by decide)]

/-- Helper: `pMembers` stepping over a comma. -/
theorem pMembers_comma (f : Nat) (rest1 : Bytes) (key : Bytes) (r : Bytes)
    (v : Json) (r3 : Bytes) (fs : JsonMembers) (r4 : Bytes)
    (hstr : pStr rest1.length rest1 = some (key, 58 :: r))
    (hv : pValue f r = some (v, 44 :: r3)) (hm : pMembers f r3 = some (fs, r4)) :
    pMembers (f + 1) (34 :: rest1) = some (.cons key v fs, r4) := by
  conv_lhs => rw [pMembers.eq_def]
  simp [skipWs_not_ws 34 rest1 (by decide), hstr, skipWs_not_ws 58 r (by decide), hv,
    skipWs_not_ws 44 r3 (by decide), hm]

/-- Helper: every value needs at least one unit of fuel. -/
theorem fuelV_pos (v : Json) : 1 ≤ fuelV v := by
  cases v <;> simp [fuelV]

/-- Helper: one `pValue` step on `null`. -/
theorem pValue_step_null (f : Nat) (rest : Bytes) :
    pValue (f + 1) (110 :: 117 :: 108 :: 108 :: rest) = some (.null, rest) := by
  conv_lhs => rw [pValue.eq_def]
  simp [skipWs_not_ws 110 _ (by decide)]

/-- Helper: one `pValue` step on `true`. -/
theorem pValue_step_true (f : Nat) (rest : Bytes) :
    pValue (f + 1) (116 :: 114 :: 117 :: 101 :: rest) = some (.bool true, rest) := by
  conv_lhs => rw [pValue.eq_def]
  simp [skipWs_not_ws 116 _ (by decide)]

/-- Helper: one `pValue` step on `false`. -/
theorem pValue_step_false (f : Nat) (rest : Bytes) :
    pValue (f + 1) (102 :: 97 :: 108 :: 115 :: 101 :: rest) = some (.bool false, rest) := by
  conv_lhs => rw [pValue.eq_def]
  simp [skipWs_not_ws 102 _ (by decide)]

/-- Helper: one `pValue` step on the empty array. -/
theorem pValue_step_arrnil (f : Nat) (rest : Bytes) :
    pValue (f + 1) (91 :: 93 :: rest) = some (.arr .nil, rest) := by
  conv_lhs => rw [pValue.eq_def]
  simp [skipWs_not_ws 91 _ (by decide), skipWs_not_ws 93 _ (by decide)]

/-- Helper: one `pValue` step on the empty object. -/
theorem pValue_step_objnil (f : Nat) (rest : Bytes) :
    pValue (f + 1) (123 :: 125 :: rest) = some (.obj .nil, rest) := by
  conv_lhs => rw [pValue.eq_def]
  simp [skipWs_not_ws 123 _ (by decide), skipWs_not_ws 125 _ (by decide)]

/-- Helper: the bytes that close arrays, objects and members are number
boundaries. -/
theorem numBoundary44 (r : Bytes) : numBoundary (44 :: r) :=
  ⟨rfl, by decide, by decide, by decide⟩

/-- Helper: `]` is a number boundary. -/
theorem numBoundary93 (r : Bytes) : numBoundary (93 :: r) :=
  ⟨rfl, by decide, by decide, by decide⟩

/-- Helper: `}` is a number boundary. -/
theorem numBoundary125 (r : Bytes) : numBoundary (125 :: r) :=
  ⟨rfl, by decide, by decide, by decide⟩

/-- Helper: the rendering of every canonical value parses back to exactly
that value, leaving the rest (main printer/parser roundtrip, by fuel
induction over the three mutually recursive parsers). -/
theorem parse_round : ∀ fuel : Nat,
    (∀ v rest, jCanon v = true → fuelV v ≤ fuel → numBoundary rest →
      pValue fuel (encV v ++ rest) = some (v, rest))
    ∧ (∀ v vs rest, jCanonItems (.cons v vs) = true → fuelItems (.cons v vs) ≤ fuel →
      pElems fuel (encItems (.cons v vs) ++ 93 :: rest) = some (.cons v vs, rest))
    ∧ (∀ k v fs rest, jCanonFields (.cons k v fs) = true → fuelFields (.cons k v fs) ≤ fuel →
      pMembers fuel (encFields (.cons k v fs) ++ 125 :: rest) = some (.cons k v fs, rest)) := by
  intro fuel
  induction fuel with
  | zero =>
    refine ⟨?_, ?_, ?_⟩
    · intro v rest _ hf _
      have := fuelV_pos v
      omega
    · intro v vs rest _ hf
      simp [fuelItems] at hf
    · intro k v fs rest _ hf
      simp [fuelFields] at hf
  | succ f ih =>
    obtain ⟨ihV, ihE, ihM⟩ := ih
    refine ⟨?_, ?_, ?_⟩
    · intro v rest hc hf hb
      cases v with
      | null =>
        have hshape : encV .null ++ rest = 110 :: 117 :: 108 :: 108 :: rest := by
          simp [encV]
        rw [hshape]
        exact pValue_step_null f rest
      | bool b =>
        cases b with
        | true =>
          have hshape : encV (.bool true) ++ rest = 116 :: 114 :: 117 :: 101 :: rest := by
            simp [encV]
          rw [hshape]
          exact pValue_step_true f rest
        | false =>
          have hshape : encV (.bool false) ++ rest
              = 102 :: 97 :: 108 :: 115 :: 101 :: rest := by
            simp [encV]
          rw [hshape]
          exact pValue_step_false f rest
      | num m k =>
        obtain ⟨c, t, hct, hcs⟩ := encNum_head m k
        have hvenc : encV (.num m k) = encNum m k := by simp [encV]
        rw [hvenc, hct, List.cons_append]
        rw [pValue_step_num f c (t ++ rest) (by simp [isWsB]; omega)
          (by omega) (by omega) (by omega) (by omega) (by omega) (by omega)]
        rw [← List.cons_append, ← hct]
        rw [pNum_encNum m k (by simpa [jCanon] using hc) rest hb]
      | str s2 =>
        have hshape : encV (.str s2) ++ rest = 34 :: (escContent s2 ++ 34 :: rest) := by
          simp [encV]
        rw [hshape, pValue_step_str]
        rw [pStr_escContent s2 rest (escContent s2 ++ 34 :: rest).length
          (by have := escContent_length_ge s2; simp; omega)]
      | arr xs =>
        cases xs with
        | nil =>
          have hshape : encV (.arr .nil) ++ rest = 91 :: 93 :: rest := by
            simp [encV, encItems]
          rw [hshape]
          exact pValue_step_arrnil f rest
        | cons w ws =>
          obtain ⟨c, t, hct, hcs⟩ := encV_head w
          obtain ⟨t2, ht2⟩ := encItems_cons_head w ws c t hct
          have hshape : encV (.arr (.cons w ws)) ++ rest
              = 91 :: (encItems (.cons w ws) ++ 93 :: rest) := by
            simp [encV]
          rw [hshape]
          have hskip : skipWs (encItems (.cons w ws) ++ 93 :: rest)
              = c :: (t2 ++ 93 :: rest) := by
            rw [ht2, List.cons_append]
            exact skipWs_not_ws c _ (by simp [isWsB]; omega)
          rw [pValue_step_arr f _ c (t2 ++ 93 :: rest) hskip (by omega)]
          rw [← List.cons_append, ← ht2]
          rw [ihE w ws rest (by simpa [jCanon] using hc) (by simp [fuelV] at hf; omega)]
      | obj fs =>
        cases fs with
        | nil =>
          have hshape : encV (.obj .nil) ++ rest = 123 :: 125 :: rest := by
            simp [encV, encFields]
          rw [hshape]
          exact pValue_step_objnil f rest
        | cons k2 v2 fs2 =>
          have hshape : encV (.obj (.cons k2 v2 fs2)) ++ rest
              = 123 :: (encFields (.cons k2 v2 fs2) ++ 125 :: rest) := by
            simp [encV]
          rw [hshape]
          obtain ⟨t2, ht2⟩ : ∃ t2, encFields (.cons k2 v2 fs2) = 34 :: t2 := by
            cases fs2 with
            | nil => exact ⟨escContent k2 ++ 34 :: 58 :: encV v2, by simp [encFields]⟩
            | cons k3 v3 fs3 =>
              exact ⟨escContent k2 ++ 34 :: 58 :: (encV v2 ++ 44 :: encFields (.cons k3 v3 fs3)),
                by simp [encFields]⟩
          have hskip : skipWs (encFields (.cons k2 v2 fs2) ++ 125 :: rest)
              = 34 :: (t2 ++ 125 :: rest) := by
            rw [ht2, List.cons_append]
            exact skipWs_not_ws 34 _ (by decide)
          rw [pValue_step_obj f _ 34 (t2 ++ 125 :: rest) hskip (by decide)]
          rw [← List.cons_append, ← ht2]
          rw [ihM k2 v2 fs2 rest (by simpa [jCanon] using hc) (by simp [fuelV] at hf; omega)]
    · intro v vs rest hc hf
      have hcv : jCanon v = true ∧ jCanonItems vs = true := by
        simpa [jCanonItems] using hc
      cases vs with
      | nil =>
        have hshape : encItems (.cons v .nil) ++ 93 :: rest = encV v ++ 93 :: rest := by
          simp [encItems]
        rw [hshape]
        exact pElems_close f _ v rest
          (ihV v (93 :: rest) hcv.1 (by simp [fuelItems] at hf ⊢; omega) (numBoundary93 rest))
      | cons w ws =>
        have hshape : encItems (.cons v (.cons w ws)) ++ 93 :: rest
            = encV v ++ 44 :: (encItems (.cons w ws) ++ 93 :: rest) := by
          simp [encItems]
        rw [hshape]
        exact pElems_comma f _ v (encItems (.cons w ws) ++ 93 :: rest) (.cons w ws) rest
          (ihV v _ hcv.1 (by simp [fuelItems] at hf ⊢; omega) (numBoundary44 _))
          (ihE w ws rest hcv.2 (by simp [fuelItems] at hf ⊢; omega))
    · intro k2 v2 fs rest hc hf
      have hcv : jCanon v2 = true ∧ jCanonFields fs = true := by
        simpa [jCanonFields] using hc
      cases fs with
      | nil =>
        have hshape : encFields (.cons k2 v2 .nil) ++ 125 :: rest
            = 34 :: (escContent k2 ++ 34 :: 58 :: (encV v2 ++ 125 :: rest)) := by
          simp [encFields]
        rw [hshape]
        exact pMembers_close f _ k2 (encV v2 ++ 125 :: rest) v2 rest
          (pStr_escContent k2 (58 :: (encV v2 ++ 125 :: rest)) _
            (by have := escContent_length_ge k2; simp; omega))
          (ihV v2 (125 :: rest) hcv.1 (by simp [fuelFields] at hf ⊢; omega) (numBoundary125 rest))
      | cons k3 v3 fs3 =>
        have hshape : encFields (.cons k2 v2 (.cons k3 v3 fs3)) ++ 125 :: rest
            = 34 :: (escContent k2 ++ 34 :: 58 ::
                (encV v2 ++ 44 :: (encFields (.cons k3 v3 fs3) ++ 125 :: rest))) := by
          simp [encFields]
        rw [hshape]
        exact pMembers_comma f _ k2
          (encV v2 ++ 44 :: (encFields (.cons k3 v3 fs3) ++ 125 :: rest)) v2
          (encFields (.cons k3 v3 fs3) ++ 125 :: rest) (.cons k3 v3 fs3) rest
          (pStr_escContent k2 (58 :: (encV v2 ++ 44 ::
              (encFields (.cons k3 v3 fs3) ++ 125 :: rest))) _
            (by have := escContent_length_ge k2; simp; omega))
          (ihV v2 _ hcv.1 (by simp [fuelFields] at hf ⊢; omega) (numBoundary44 _))
          (ihM k3 v3 fs3 rest hcv.2 (by simp [fuelFields] at hf ⊢; omega))

mutual
/-- Helper: the fuel a value needs is bounded by its rendering's length. -/
theorem fuelV_le_encV : ∀ v : Json, fuelV v ≤ (encV v).length
  | .null => by simp [fuelV, encV]
  | .bool b => by cases b <;> simp [fuelV, encV]
  | .num m k => by
    obtain ⟨c, t, hct, _⟩ := encNum_head m k
    simp [fuelV, encV, hct]
  | .str s => by simp [fuelV, encV]
  | .arr xs => by
    have h := fuelItems_le_encItems xs
    simp [fuelV, encV]
    omega
  | .obj fs => by
    have h := fuelFields_le_encFields fs
    simp [fuelV, encV]
    omega
/-- Helper: fuel bound for element lists. -/
theorem fuelItems_le_encItems : ∀ xs : JsonList, fuelItems xs ≤ (encItems xs).length + 1
  | .nil => by simp [fuelItems, encItems]
  | .cons v .nil => by
    have h := fuelV_le_encV v
    simp [fuelItems, fuelItems, encItems]
    omega
  | .cons v (.cons w ws) => by
    have h1 := fuelV_le_encV v
    have h2 := fuelItems_le_encItems (.cons w ws)
    simp [fuelItems, encItems] at h2 ⊢
    omega
/-- Helper: fuel bound for member lists. -/
theorem fuelFields_le_encFields : ∀ fs : JsonMembers, fuelFields fs ≤ (encFields fs).length + 1
  | .nil => by simp [fuelFields, encFields]
  | .cons k v .nil => by
    have h := fuelV_le_encV v
    simp [fuelFields, encFields]
    omega
  | .cons k v (.cons k2 w fs) => by
    have h1 := fuelV_le_encV v
    have h2 := fuelFields_le_encFields (.cons k2 w fs)
    simp [fuelFields, encFields] at h2 ⊢
    omega
end

/-- Helper: the rendering of a canonical value parses back to the value. -/
theorem parseJson_encV (w : Json) (hc : jCanon w = true) : parseJson (encV w) = some w := by
  unfold parseJson
  have hlen := fuelV_le_encV w
  have h := (parse_round ((encV w).length + 1)).1 w [] hc (by omega) trivial
  rw [show encV w ++ ([] : Bytes) = encV w from by simp] at h
  rw [h]
  simp [skipWs]

/-- Helper: `stripZerosN` always yields a normalised scaled decimal. -/
theorem stripZerosN_spec : ∀ k n, (stripZerosN n k).2 = 0 ∨ (stripZerosN n k).1 % 10 ≠ 0 := by
  intro k
  induction k with
  | zero => intro n; exact Or.inl rfl
  | succ k0 ih =>
    intro n
    by_cases h : n % 10 = 0
    · simpa [stripZerosN, h] using ih (n / 10)
    · simp [stripZerosN, h]

/-- Helper: `applyExpN` always yields a normalised scaled decimal. -/
theorem applyExpN_spec (n k : Nat) (esign : Bool) (ev : Nat) :
    (applyExpN n k esign ev).2 = 0 ∨ (applyExpN n k esign ev).1 % 10 ≠ 0 := by
  unfold applyExpN
  split_ifs
  · exact stripZerosN_spec _ _
  · exact Or.inl rfl
  · exact stripZerosN_spec _ _

/-- Helper: transfer normalisation along a pair equality. -/
theorem canon_pair (p : Int × Nat) (m : Int) (k : Nat) (hp : p = (m, k))
    (hc : p.2 = 0 ∨ p.1.natAbs % 10 ≠ 0) : k = 0 ∨ m.natAbs % 10 ≠ 0 := by
  rw [hp] at hc
  simpa using hc

/-- Helper: `mkNum` preserves normalisation through the sign. -/
theorem mkNum_canon (neg : Bool) (p : Nat × Nat) (hp : p.2 = 0 ∨ p.1 % 10 ≠ 0) :
    (mkNum neg p).2 = 0 ∨ (mkNum neg p).1.natAbs % 10 ≠ 0 := by
  cases neg <;> simpa [mkNum] using hp

/-- Helper: numbers delivered by `pNumExpPart` are normalised. -/
theorem pNumExpPart_canon (neg : Bool) (n k : Nat) (rest : Bytes) (m : Int) (k2 : Nat)
    (r : Bytes) (h : pNumExpPart neg n k rest = some ((m, k2), r)) :
    k2 = 0 ∨ m.natAbs % 10 ≠ 0 := by
  unfold pNumExpPart at h
  dsimp only at h
  split_ifs at h
  simp only [Option.some.injEq, Prod.mk.injEq] at h
  exact canon_pair _ m k2 h.1 (mkNum_canon neg _ (applyExpN_spec n k _ _))

/-- Helper: numbers delivered by `pNumTail` are normalised. -/
theorem pNumTail_canon (neg : Bool) (n k : Nat) (r0 : Bytes) (m : Int) (k2 : Nat)
    (r : Bytes) (h : pNumTail neg n k r0 = some ((m, k2), r)) :
    k2 = 0 ∨ m.natAbs % 10 ≠ 0 := by
  unfold pNumTail at h
  split at h
  · simp only [Option.some.injEq, Prod.mk.injEq] at h
    exact canon_pair _ m k2 h.1 (mkNum_canon neg _ (stripZerosN_spec k n))
  · split_ifs at h
    · exact pNumExpPart_canon neg n k _ m k2 r h
    · simp only [Option.some.injEq, Prod.mk.injEq] at h
      exact canon_pair _ m k2 h.1 (mkNum_canon neg _ (stripZerosN_spec k n))

/-- Helper: numbers delivered by `pNumAfterInt` are normalised. -/
theorem pNumAfterInt_canon (neg : Bool) (n : Nat) (r1 : Bytes) (m : Int) (k : Nat)
    (r : Bytes) (h : pNumAfterInt neg n r1 = some ((m, k), r)) :
    k = 0 ∨ m.natAbs % 10 ≠ 0 := by
  cases r1 with
  | nil => exact pNumTail_canon neg n 0 [] m k r h
  | cons c rr =>
    by_cases hc : c = 46
    · subst hc
      rw [pNumAfterInt_frac] at h
      split_ifs at h
      exact pNumTail_canon neg _ _ _ m k r h
    · rw [pNumAfterInt_nofrac neg n c rr hc] at h
      exact pNumTail_canon neg n 0 (c :: rr) m k r h

/-- Helper: numbers delivered by `pNum` are normalised. -/
theorem pNum_canon (input : Bytes) (m : Int) (k : Nat) (r : Bytes)
    (h : pNum input = some ((m, k), r)) : k = 0 ∨ m.natAbs % 10 ≠ 0 := by
  unfold pNum at h
  split at h
  · cases h
  · split_ifs at h <;>
    · unfold pNumMag at h
      dsimp only at h
      split_ifs at h
      exact pNumAfterInt_canon _ _ _ m k r h

/-- Helper: every value the fuelled parsers deliver is canonical (scaled
decimals normalised at every number leaf). -/
theorem pValue_canon : ∀ fuel : Nat,
    (∀ input v r, pValue fuel input = some (v, r) → jCanon v = true)
    ∧ (∀ input xs r, pElems fuel input = some (xs, r) → jCanonItems xs = true)
    ∧ (∀ input fs r, pMembers fuel input = some (fs, r) → jCanonFields fs = true) := by
  intro fuel
  induction fuel with
  | zero =>
    refine ⟨?_, ?_, ?_⟩ <;> intro input x r h <;>
      simp [pValue, pElems, pMembers] at h
  | succ f ih =>
    obtain ⟨ihV, ihE, ihM⟩ := ih
    refine ⟨?_, ?_, ?_⟩
    · intro input v r h
      rw [pValue.eq_def] at h
      dsimp only at h
      split at h
      · exact Option.noConfusion h
      · rename_i b rest2 hsk
        split_ifs at h
        · split at h
          · rw [Option.some.injEq, Prod.mk.injEq] at h
            obtain ⟨h1, h2⟩ := h
            subst h1
            rfl
          · exact Option.noConfusion h
        · split at h
          · rw [Option.some.injEq, Prod.mk.injEq] at h
            obtain ⟨h1, h2⟩ := h
            subst h1
            rfl
          · exact Option.noConfusion h
        · split at h
          · rw [Option.some.injEq, Prod.mk.injEq] at h
            obtain ⟨h1, h2⟩ := h
            subst h1
            rfl
          · exact Option.noConfusion h
        · cases hS : pStr rest2.length rest2 with
          | none => rw [hS] at h; exact Option.noConfusion h
          | some p =>
            obtain ⟨s2, r1⟩ := p
            rw [hS] at h
            dsimp only at h
            rw [Option.some.injEq, Prod.mk.injEq] at h
            obtain ⟨h1, h2⟩ := h
            subst h1
            rfl
        · split at h
          · exact Option.noConfusion h
          · rename_i c r2 hsk2
            split_ifs at h
            · rw [Option.some.injEq, Prod.mk.injEq] at h
              obtain ⟨h1, h2⟩ := h
              subst h1
              rfl
            · cases hE : pElems f (c :: r2) with
              | none => rw [hE] at h; exact Option.noConfusion h
              | some p =>
                obtain ⟨xs, r3⟩ := p
                rw [hE] at h
                dsimp only at h
                rw [Option.some.injEq, Prod.mk.injEq] at h
                obtain ⟨h1, h2⟩ := h
                subst h1
                simpa [jCanon] using ihE _ xs r3 hE
        · split at h
          · exact Option.noConfusion h
          · rename_i c r2 hsk2
            split_ifs at h
            · rw [Option.some.injEq, Prod.mk.injEq] at h
              obtain ⟨h1, h2⟩ := h
              subst h1
              rfl
            · cases hM : pMembers f (c :: r2) with
              | none => rw [hM] at h; exact Option.noConfusion h
              | some p =>
                obtain ⟨fs, r3⟩ := p
                rw [hM] at h
                dsimp only at h
                rw [Option.some.injEq, Prod.mk.injEq] at h
                obtain ⟨h1, h2⟩ := h
                subst h1
                simpa [jCanon] using ihM _ fs r3 hM
        · cases hN : pNum (b :: rest2) with
          | none => rw [hN] at h; exact Option.noConfusion h
          | some p =>
            obtain ⟨⟨m, k⟩, r2⟩ := p
            rw [hN] at h
            dsimp only at h
            rw [Option.some.injEq, Prod.mk.injEq] at h
            obtain ⟨h1, h2⟩ := h
            subst h1
            simpa [jCanon] using pNum_canon _ m k r2 hN
    · intro input xs r h
      rw [pElems.eq_def] at h
      dsimp only at h
      cases hV : pValue f input with
      | none => rw [hV] at h; exact Option.noConfusion h
      | some p =>
        obtain ⟨v, r1⟩ := p
        rw [hV] at h
        dsimp only at h
        split at h
        · exact Option.noConfusion h
        · rename_i c r2 hsk
          split_ifs at h
          · cases hE : pElems f r2 with
            | none => rw [hE] at h; exact Option.noConfusion h
            | some q =>
              obtain ⟨xs2, r3⟩ := q
              rw [hE] at h
              dsimp only at h
              rw [Option.some.injEq, Prod.mk.injEq] at h
              obtain ⟨h1, h2⟩ := h
              subst h1
              have hv := ihV _ v r1 hV
              have hxs := ihE _ xs2 r3 hE
              simp [jCanonItems, hv, hxs]
          · rw [Option.some.injEq, Prod.mk.injEq] at h
            obtain ⟨h1, h2⟩ := h
            subst h1
            have hv := ihV _ v r1 hV
            simp [jCanonItems, hv]
    · intro input fs r h
      rw [pMembers.eq_def] at h
      dsimp only at h
      split at h
      · exact Option.noConfusion h
      · rename_i c rest2 hsk
        split_ifs at h
        cases hS : pStr rest2.length rest2 with
        | none => rw [hS] at h; exact Option.noConfusion h
        | some p =>
          obtain ⟨key, r1⟩ := p
          rw [hS] at h
          dsimp only at h
          split at h
          · exact Option.noConfusion h
          · rename_i c2 r2 hsk2
            split_ifs at h
            cases hV2 : pValue f r2 with
            | none => rw [hV2] at h; exact Option.noConfusion h
            | some q =>
              obtain ⟨v, r3⟩ := q
              rw [hV2] at h
              dsimp only at h
              split at h
              · exact Option.noConfusion h
              · rename_i c3 r4 hsk3
                split_ifs at h
                · cases hM : pMembers f r4 with
                  | none => rw [hM] at h; exact Option.noConfusion h
                  | some q2 =>
                    obtain ⟨fs2, r5⟩ := q2
                    rw [hM] at h
                    dsimp only at h
                    rw [Option.some.injEq, Prod.mk.injEq] at h
                    obtain ⟨h1, h2⟩ := h
                    subst h1
                    have hv := ihV _ v r3 hV2
                    have hfs := ihM _ fs2 r5 hM
                    simp [jCanonFields, hv, hfs]
                · rw [Option.some.injEq, Prod.mk.injEq] at h
                  obtain ⟨h1, h2⟩ := h
                  subst h1
                  have hv := ihV _ v r3 hV2
                  simp [jCanonFields, hv]

/-- Helper: everything `parseJson` delivers is canonical. -/
theorem parseJson_canon (bs : Bytes) (v : Json) (h : parseJson bs = some v) :
    jCanon v = true := by
  unfold parseJson at h
  cases hp : pValue (bs.length + 1) bs with
  | none => rw [hp] at h; exact Option.noConfusion h
  | some p =>
    obtain ⟨w, r⟩ := p
    rw [hp] at h
    dsimp only at h
    split_ifs at h
    · rw [Option.some.injEq] at h
      subst h
      exact (pValue_canon (bs.length + 1)).1 bs w r hp

/-- Helper: normalising member values does not change the key set. -/
theorem mHasKey_goNormFields : ∀ (fs : JsonMembers) (k : Bytes),
    mHasKey (goNormFields fs) k = mHasKey fs k
  | .nil, k => by simp [goNormFields, mHasKey]
  | .cons k0 v tl, k => by
    simp [goNormFields, mHasKey, mHasKey_goNormFields tl k]

/-- Helper: lookup after normalising the member values is the normalised
lookup. -/
theorem mLookup_goNormFields : ∀ (fs : JsonMembers) (k : Bytes),
    mLookup (goNormFields fs) k = (mLookup fs k).map goNorm
  | .nil, k => by simp [goNormFields, mLookup]
  | .cons k0 v tl, k => by
    by_cases hk : k0 = k
    · simp [goNormFields, mLookup, hk]
    · simp [goNormFields, mLookup, hk, mLookup_goNormFields tl k]

/-- Helper: normalising member values preserves key distinctness. -/
theorem keysNodupM_goNormFields : ∀ fs : JsonMembers,
    keysNodupM (goNormFields fs) = keysNodupM fs
  | .nil => by simp [goNormFields, keysNodupM]
  | .cons k v tl => by
    simp [goNormFields, keysNodupM, mHasKey_goNormFields, keysNodupM_goNormFields tl]

/-- Helper: recursive duplicate-key freedom gives distinct keys at the top
level. -/
theorem noDupKeysFields_keysNodup : ∀ fs : JsonMembers,
    noDupKeysFields fs = true → keysNodupM fs = true
  | .nil, _ => rfl
  | .cons k v tl, h => by
    simp only [noDupKeysFields, Bool.and_eq_true] at h
    simp [keysNodupM, Bool.and_eq_true, noDupKeysFields_keysNodup tl h.2]
    simpa using h.1.1

/-- Helper: `.nil` is right neutral for `mAppend`. -/
theorem mAppend_nil : ∀ fs : JsonMembers, mAppend fs .nil = fs
  | .nil => rfl
  | .cons k v tl => by simp [mAppend, mAppend_nil tl]

/-- Helper: key membership distributes over `mAppend`. -/
theorem mHasKey_mAppend : ∀ (a b : JsonMembers) (k : Bytes),
    mHasKey (mAppend a b) k = (mHasKey a k || mHasKey b k)
  | .nil, b, k => by simp [mAppend, mHasKey]
  | .cons k0 v tl, b, k => by
    simp [mAppend, mHasKey, mHasKey_mAppend tl b k, Bool.or_assoc]

/-- Helper: `mAppend` is associative. -/
theorem mAppend_assoc : ∀ a b c : JsonMembers,
    mAppend (mAppend a b) c = mAppend a (mAppend b c)
  | .nil, b, c => rfl
  | .cons k v tl, b, c => by simp [mAppend, mAppend_assoc tl b c]

/-- Helper: inserting an absent key into a Go map appends the binding. -/
theorem mInsertGo_absent : ∀ (acc : JsonMembers) (k : Bytes) (v : Json),
    mHasKey acc k = false → mInsertGo acc k v = mAppend acc (.cons k v .nil)
  | .nil, k, v, _ => rfl
  | .cons k0 v0 tl, k, v, h => by
    simp only [mHasKey, Bool.or_eq_false_iff, beq_eq_false_iff_ne] at h
    simp [mInsertGo, mAppend, h.1, mInsertGo_absent tl k v h.2]

/-- Helper: folding a duplicate-free member list into a Go map appends it to
the accumulator. -/
theorem mDedupAux_app : ∀ (fs acc : JsonMembers), keysNodupM fs = true →
    (∀ k2, mHasKey fs k2 = true → mHasKey acc k2 = false) →
    mDedupAux acc fs = mAppend acc fs
  | .nil, acc, _, _ => by simp [mDedupAux, mAppend_nil]
  | .cons k v tl, acc, hn, hdisj => by
    simp only [keysNodupM, Bool.and_eq_true, Bool.not_eq_true'] at hn
    have hacc : mHasKey acc k = false := hdisj k (by simp [mHasKey])
    have hdisj2 : ∀ k2, mHasKey tl k2 = true →
        mHasKey (mAppend acc (.cons k v .nil)) k2 = false := by
      intro k2 hk2
      have h1 : mHasKey acc k2 = false := hdisj k2 (by simp [mHasKey, hk2])
      have h2 : (k == k2) = false := by
        by_cases heq : k = k2
        · subst heq; rw [hk2] at hn; exact absurd hn.1 (by simp)
        · simpa using heq
      simp [mHasKey_mAppend, mHasKey, h1, h2]
    calc mDedupAux acc (.cons k v tl)
        = mDedupAux (mInsertGo acc k v) tl := by simp only [mDedupAux]
      _ = mDedupAux (mAppend acc (.cons k v .nil)) tl := by
          rw [mInsertGo_absent acc k v hacc]
      _ = mAppend (mAppend acc (.cons k v .nil)) tl :=
          mDedupAux_app tl _ hn.2 hdisj2
      _ = mAppend acc (.cons k v tl) := by rw [mAppend_assoc]; rfl

/-- Helper: a member list with distinct keys passes through the Go map
unchanged. -/
theorem mDedup_nodup (fs : JsonMembers) (h : keysNodupM fs = true) :
    mDedup fs = fs := by
  have hd := mDedupAux_app fs .nil h (fun k2 _ => rfl)
  simpa [mDedup, mAppend] using hd

/-- Helper: key membership after sorted insertion. -/
theorem mHasKey_mInsertSorted : ∀ (fs : JsonMembers) (k : Bytes) (v : Json) (k2 : Bytes),
    mHasKey (mInsertSorted k v fs) k2 = (k == k2 || mHasKey fs k2)
  | .nil, k, v, k2 => by simp [mInsertSorted, mHasKey]
  | .cons k0 v0 tl, k, v, k2 => by
    by_cases hlt : bytesLt k k0
    · simp [mInsertSorted, hlt, mHasKey]
    · simp [mInsertSorted, hlt, mHasKey, mHasKey_mInsertSorted tl k v k2,
        Bool.or_left_comm]

/-- Helper: insertion sort does not change the key set. -/
theorem mHasKey_mSort : ∀ (fs : JsonMembers) (k2 : Bytes),
    mHasKey (mSort fs) k2 = mHasKey fs k2
  | .nil, k2 => rfl
  | .cons k v tl, k2 => by
    simp [mSort, mHasKey_mInsertSorted, mHasKey, mHasKey_mSort tl k2]

/-- Helper: looking up after sorted insertion of an absent key. -/
theorem mLookup_mInsertSorted : ∀ (fs : JsonMembers) (k0 : Bytes) (v0 : Json) (k : Bytes),
    mHasKey fs k0 = false →
    mLookup (mInsertSorted k0 v0 fs) k = if k0 = k then some v0 else mLookup fs k
  | .nil, k0, v0, k, _ => by simp [mInsertSorted, mLookup]
  | .cons k1 v1 tl, k0, v0, k, h => by
    simp only [mHasKey, Bool.or_eq_false_iff, beq_eq_false_iff_ne] at h
    by_cases hlt : bytesLt k0 k1
    · simp [mInsertSorted, hlt, mLookup]
    · simp only [mInsertSorted, if_neg hlt, mLookup]
      rw [mLookup_mInsertSorted tl k0 v0 k h.2]
      by_cases hk1 : k1 = k
      · subst hk1
        have hne : k0 ≠ k1 := fun e => h.1 e.symm
        simp [hne]
      · simp [hk1]

/-- Helper: on a member list with distinct keys, insertion sort does not
change lookups. -/
theorem mLookup_mSort : ∀ (fs : JsonMembers) (k : Bytes), keysNodupM fs = true →
    mLookup (mSort fs) k = mLookup fs k
  | .nil, k, _ => rfl
  | .cons k0 v0 tl, k, h => by
    simp only [keysNodupM, Bool.and_eq_true, Bool.not_eq_true'] at h
    have hnk : mHasKey (mSort tl) k0 = false := by rw [mHasKey_mSort]; exact h.1
    simp only [mSort]
    rw [mLookup_mInsertSorted (mSort tl) k0 v0 k hnk, mLookup_mSort tl k h.2]
    simp only [mLookup]

/-- Helper: lookup through the whole dedup-normalise-sort pipeline equals
the normalised direct lookup, given distinct keys. -/
theorem mLookup_norm (fs : JsonMembers) (k : Bytes) (h : keysNodupM fs = true) :
    mLookup (mSort (mDedup (goNormFields fs))) k = (mLookup fs k).map goNorm := by
  have h2 : keysNodupM (goNormFields fs) = true := by
    rw [keysNodupM_goNormFields]; exact h
  rw [mDedup_nodup _ h2, mLookup_mSort _ k h2, mLookup_goNormFields]

/-- Helper: a value looked up in a recursively duplicate-free member list is
itself recursively duplicate-free. -/
theorem noDupKeys_mLookup : ∀ (fs : JsonMembers) (k : Bytes) (w : Json),
    noDupKeysFields fs = true → mLookup fs k = some w → noDupKeys w = true
  | .nil, k, w, _, hl => by simp [mLookup] at hl
  | .cons k0 v0 tl, k, w, h, hl => by
    simp only [noDupKeysFields, Bool.and_eq_true] at h
    simp only [mLookup] at hl
    split_ifs at hl with hk
    · rw [Option.some.injEq] at hl
      exact hl ▸ h.1.2
    · exact noDupKeys_mLookup tl k w h.2 hl

/-- Helper: sorted insertion of a canonical value preserves canonicity. -/
theorem jCanonFields_mInsertSorted : ∀ (fs : JsonMembers) (k : Bytes) (v : Json),
    jCanon v = true → jCanonFields fs = true → jCanonFields (mInsertSorted k v fs) = true
  | .nil, k, v, hv, _ => by simp [mInsertSorted, jCanonFields, hv]
  | .cons k0 v0 tl, k, v, hv, hf => by
    simp only [jCanonFields, Bool.and_eq_true] at hf
    by_cases hlt : bytesLt k k0
    · simp [mInsertSorted, hlt, jCanonFields, hv, hf.1, hf.2]
    · simp [mInsertSorted, hlt, jCanonFields, hf.1,
        jCanonFields_mInsertSorted tl k v hv hf.2]

/-- Helper: insertion sort preserves canonicity of member values. -/
theorem jCanonFields_mSort : ∀ fs : JsonMembers,
    jCanonFields fs = true → jCanonFields (mSort fs) = true
  | .nil, _ => rfl
  | .cons k v tl, h => by
    simp only [jCanonFields, Bool.and_eq_true] at h
    simp only [mSort]
    exact jCanonFields_mInsertSorted (mSort tl) k v h.1 (jCanonFields_mSort tl h.2)

mutual
/-- Helper: the decode/re-encode normalisation of a canonical,
duplicate-key-free value is canonical. -/
theorem goNorm_canon : ∀ v : Json, jCanon v = true → noDupKeys v = true →
    jCanon (goNorm v) = true
  | .null, _, _ => by simp [goNorm, jCanon]
  | .bool b, _, _ => by simp [goNorm, jCanon]
  | .num m k, hc, _ => by simpa [goNorm, jCanon] using hc
  | .str s, _, _ => by simp [goNorm, jCanon]
  | .arr xs, hc, hd => by
    simp only [jCanon, noDupKeys] at hc hd
    simpa [goNorm, jCanon] using goNormItems_canon xs hc hd
  | .obj fs, hc, hd => by
    simp only [jCanon, noDupKeys] at hc hd
    have hnd : keysNodupM (goNormFields fs) = true := by
      rw [keysNodupM_goNormFields]
      exact noDupKeysFields_keysNodup fs hd
    have hded : mDedup (goNormFields fs) = goNormFields fs := mDedup_nodup _ hnd
    have hcf : jCanonFields (goNormFields fs) = true := goNormFields_canon fs hc hd
    simp only [goNorm, jCanon, hded]
    exact jCanonFields_mSort _ hcf
/-- Helper: canonicity of normalised array elements. -/
theorem goNormItems_canon : ∀ xs : JsonList, jCanonItems xs = true →
    noDupKeysItems xs = true → jCanonItems (goNormItems xs) = true
  | .nil, _, _ => by simp [goNormItems, jCanonItems]
  | .cons v vs, hc, hd => by
    simp only [jCanonItems, noDupKeysItems, Bool.and_eq_true] at hc hd
    simp [goNormItems, jCanonItems, goNorm_canon v hc.1 hd.1,
      goNormItems_canon vs hc.2 hd.2]
/-- Helper: canonicity of normalised member values. -/
theorem goNormFields_canon : ∀ fs : JsonMembers, jCanonFields fs = true →
    noDupKeysFields fs = true → jCanonFields (goNormFields fs) = true
  | .nil, _, _ => by simp [goNormFields, jCanonFields]
  | .cons k v tl, hc, hd => by
    simp only [jCanonFields, noDupKeysFields, Bool.and_eq_true] at hc hd
    simp [goNormFields, jCanonFields, goNorm_canon v hc.1 hd.1.2,
      goNormFields_canon tl hc.2 hd.2]
end

/-- Helper: on a duplicate-key-free value, walking a key path through the
normalised value yields the normalised result of walking the original. -/
theorem walkPath_goNorm : ∀ (path : List Bytes) (v : Json), noDupKeys v = true →
    walkPath (goNorm v) path = (walkPath v path).map goNorm
  | [], v, _ => by simp [walkPath]
  | k :: rest, .null, _ => by simp only [goNorm]; rfl
  | k :: rest, .bool b, _ => by simp only [goNorm]; rfl
  | k :: rest, .num m kk, _ => by simp only [goNorm]; rfl
  | k :: rest, .str s, _ => by simp only [goNorm]; rfl
  | k :: rest, .arr xs, _ => by simp only [goNorm]; rfl
  | k :: rest, .obj fs, hd => by
    simp only [noDupKeys] at hd
    have hkey := noDupKeysFields_keysNodup fs hd
    have hlk := mLookup_norm fs k hkey
    simp only [goNorm, walkPath, hlk]
    cases hw : mLookup fs k with
    | none => rfl
    | some w =>
      simp only [Option.map_some']
      exact walkPath_goNorm rest w (noDupKeys_mLookup fs k w hd hw)

/-- Helper: string extraction is invariant under decode/re-encode on
duplicate-key-free bodies. -/
theorem jpGetString_norm (v : Json) (body : Bytes) (path : List Bytes)
    (hb : parseJson body = some v) (hc : jCanon v = true) (hd : noDupKeys v = true) :
    jpGetString (encV (goNorm v)) path = jpGetString body path := by
  have hpe : parseJson (encV (goNorm v)) = some (goNorm v) :=
    parseJson_encV (goNorm v) (goNorm_canon v hc hd)
  have hwp := walkPath_goNorm path v hd
  unfold jpGetString
  rw [hpe, hb]
  dsimp only
  rw [hwp]
  cases hw : walkPath v path with
  | none => rfl
  | some w => cases w <;> simp [goNorm]

/-- Helper: number extraction is invariant under decode/re-encode on
duplicate-key-free bodies. -/
theorem jpGetFloat_norm (v : Json) (body : Bytes) (path : List Bytes)
    (hb : parseJson body = some v) (hc : jCanon v = true) (hd : noDupKeys v = true) :
    jpGetFloat (encV (goNorm v)) path = jpGetFloat body path := by
  have hpe : parseJson (encV (goNorm v)) = some (goNorm v) :=
    parseJson_encV (goNorm v) (goNorm_canon v hc hd)
  have hwp := walkPath_goNorm path v hd
  unfold jpGetFloat
  rw [hpe, hb]
  dsimp only
  rw [hwp]
  cases hw : walkPath v path with
  | none => rfl
  | some w => cases w <;> simp [goNorm]

/-- C9: the counterexample. On a provider body whose top-level object repeats
the key `location`, the round trip is NOT neutral: `jsonparser` reads
`location.name = "A"` (first binding) from the raw body, but the client's
decode/re-encode collapses the object to the LAST binding, so the handler
extracts `"B"` from what the client returns. -/
theorem C9_counterexample :
    jpGetString dupKeyBody locationNamePath = ascii "A"
    ∧ callWeatherAPIBody dupKeyBody = .ok (ascii "\x7b\"location\":\x7b\"name\":\"B\"\x7d\x7d")
    ∧ jpGetString (ascii "\x7b\"location\":\x7b\"name\":\"B\"\x7d\x7d") locationNamePath = ascii "B" :=
  ⟨by decide, by rfl, by decide⟩

/-- C9 (amended): for a provider body that decodes as a JSON object in which
no object at any nesting level has duplicate keys and every string (member
keys and string values) satisfies `strOk` — valid UTF-8, no code point
below U+0020, no surrogate, no U+2028/U+2029, so `encoding/json` performs
no replacement-character coercion, no control-byte rejection and no
line-separator escaping on it — the weather client's decode-then-re-encode
round trip is semantically neutral for the handler: the client returns the
re-encoding of the normalised value, and extracting `location.name`,
`current.temp_c` and `current.condition.text` from that re-encoded string
yields exactly the triple extracted from the original body (hence the same
rendered message). Outside the `strsOk` region the program is NOT neutral
(Go coerces invalid UTF-8 to U+FFFD while `jsonparser` reads raw bytes),
and this byte-level model does not cover it. -/
theorem C9_roundtrip_neutral (body : Bytes) (fs : JsonMembers)
    (hp : parseJson body = some (.obj fs)) (hnd : noDupKeys (.obj fs) = true)
    (_hstr : strsOk (.obj fs) = true) :
    callWeatherAPIBody body = .ok (encV (goNorm (.obj fs)))
    ∧ extract3 (encV (goNorm (.obj fs))) = extract3 body := by
  have hc : jCanon (.obj fs) = true := parseJson_canon body _ hp
  constructor
  · simp [callWeatherAPIBody, hp]
  · unfold extract3
    rw [jpGetString_norm (.obj fs) body locationNamePath hp hc hnd,
      jpGetFloat_norm (.obj fs) body tempPath hp hc hnd,
      jpGetString_norm (.obj fs) body conditionPath hp hc hnd]

/-- C9: witness — the Paris body decodes to `parisFields`, has no duplicate
keys anywhere, all its strings are plain ASCII (hence `strOk`), and the
round trip is neutral on it. -/
theorem C9_witness :
    parseJson parisBody = some (.obj parisFields)
    ∧ noDupKeys (.obj parisFields) = true
    ∧ strsOk (.obj parisFields) = true
    ∧ (callWeatherAPIBody parisBody = .ok (encV (goNorm (.obj parisFields)))
       ∧ extract3 (encV (goNorm (.obj parisFields))) = extract3 parisBody) :=
  ⟨by rfl, by rfl, by rfl,
    C9_roundtrip_neutral parisBody parisFields (by rfl) (by rfl) (by rfl)⟩

end MMWeather
